import Mathlib

/-!
# Verification of the Maven deployment script (`deploy.py`)

Shallow embedding of `deploy.py`.  External subprocesses (git, mvn) are
modelled by an environment `Env` that maps each invoked command line (argv
list plus working directory) to an outcome: an exit status together with the
lines the command printed on stdout, or an operator interrupt.  The script
itself is embedded as a computation in a writer/except monad `M`: it either
returns a value or aborts with a `RunError`, and in both cases it records the
ordered trace of side-effecting operations it performed (subprocess
invocations and directory operations).
-/

set_option linter.unusedVariables false

/-- Outcome of one external command, as decided by the environment:
either the process exits with a status code and a list of stdout lines,
or the operator interrupts it (`KeyboardInterrupt` in the source). -/
inductive CmdOutcome where
  | exits (code : Nat) (out : List String)
  | interrupt
deriving Repr, DecidableEq

/-- The ways the embedded script can abort.
`userError` is the script's `UserError` (caught at top level, exit 1);
`uncaught` stands for an uncaught Python exception (a failed `assert` or a
failed tuple unpacking), which terminates the interpreter with a traceback;
`interrupted` is `KeyboardInterrupt` (exit 2); `usageError` is argparse
rejecting the command line (exit 2). -/
inductive RunError where
  | userError (msg : String)
  | uncaught
  | interrupted
  | usageError
deriving Repr, DecidableEq

/-- One observable side effect of the run. `cmd` records a subprocess
invocation: its argv, its working directory, and whether it was run in
`exit_code=True` mode (where a nonzero status is returned, not raised). -/
inductive Ev where
  | cmd (args : List String) (cwd : Option String) (exitCodeMode : Bool)
  | mkdir (dir : String)
  | makedirs (dir : String)
  | mkdtemp (dir : String)
  | rmtree (dir : String)
deriving Repr, DecidableEq

/-- The ambient world: outcomes of external commands, the current working
directory, the directory holding the script, the path `tempfile` picks for a
system temporary directory, and the unique leaf name `mkdtemp` generates in
debug mode. -/
structure Env where
  result : List String → Option String → CmdOutcome
  cwd : String
  scriptDir : String
  sysTempDir : String
  freshName : String

/-- The script monad: an `Except` result paired with the trace of events
emitted so far (also on the error path). -/
def M (α : Type) : Type := Except RunError α × List Ev

namespace M

def pur {α : Type} (a : α) : M α := (Except.ok a, [])

def thr {α : Type} (e : RunError) : M α := (Except.error e, [])

def bind {α β : Type} (x : M α) (f : α → M β) : M β :=
  match x with
  | (Except.ok a, t) =>
    match f a with
    | (r, t2) => (r, t ++ t2)
  | (Except.error e, t) => (Except.error e, t)

def emit (e : Ev) : M Unit := (Except.ok (), [e])

def liftE {α : Type} (x : Except RunError α) : M α := (x, [])

/-- Append a cleanup event after `x` finishes, whatever its result: this is
the `finally`-like behaviour of a `with` block's `__exit__`. -/
def fin {α : Type} (x : M α) (e : Ev) : M α := (x.1, x.2 ++ [e])

end M

/-- `'Command failed with exit status {}: {}'.format(returncode, ' '.join(args))` -/
def failMsg (code : Nat) (args : List String) : String :=
  "Command failed with exit status " ++ toString code ++ ": " ++ String.intercalate " " args

/-- Return value of `command`: an exit status (in `exit_code=True` mode),
captured stdout lines (in `output=True` mode), or nothing. -/
inductive CommandRet where
  | exitCode (n : Nat)
  | output (lines : List String)
  | noOutput
deriving Repr, DecidableEq

/-- `command(*args, cwd, output, exit_code)` from `deploy.py`:
run the subprocess; in `exit_code` mode return its status, otherwise raise
`UserError` on a nonzero status and return the (optionally captured)
output. -/
def command (env : Env) (args : List String) (cwd : Option String)
    (output : Bool) (exit_code : Bool) : M CommandRet :=
  M.bind (M.emit (Ev.cmd args cwd exit_code)) fun _ =>
  match env.result args cwd with
  | CmdOutcome.interrupt => M.thr RunError.interrupted
  | CmdOutcome.exits code out =>
    if exit_code then M.pur (CommandRet.exitCode code)
    else if code = 0 then M.pur (if output then CommandRet.output out else CommandRet.noOutput)
    else M.thr (RunError.userError (failMsg code args))

/-- Boolean prefix test on strings (used to model `os.path` behaviour). -/
def strStarts (p s : String) : Bool := p.toList.isPrefixOf s.toList

/-- `os.path.join` for two components (POSIX): an absolute second component
wins. -/
def pathJoin (a b : String) : String := if strStarts "/" b then b else a ++ "/" ++ b

/-- `os.path.abspath` relative to the process working directory. -/
def abspath (cwd p : String) : String := if strStarts "/" p then p else pathJoin cwd p

theorem dropWhile_len_le {α : Type} (p : α → Bool) (l : List α) :
    (l.dropWhile p).length ≤ l.length := by
  induction l with
  | nil => simp [List.dropWhile]
  | cons a l ih =>
    by_cases h : p a
    · simpa [List.dropWhile, h] using Nat.le_succ_of_le ih
    · simp [List.dropWhile, h]

/-- Replacement text for one maximal digit run `d`:
`'1' * len(d) + '0' + d` (the substitution of the `re.sub` in the source). -/
def emitRun (run : List Char) : List Char :=
  if run.isEmpty then [] else List.replicate run.length '1' ++ '0' :: run

/-- Single pass over the characters carrying the digit run scanned so far:
together with `emitRun` this performs
`re.sub('[0-9]+', lambda x: '%s0%s' % ('1' * len(x.group()), x.group()), str)`. -/
def numKeyGo (run : List Char) : List Char → List Char
  | [] => emitRun run
  | c :: cs =>
    if c.isDigit then numKeyGo (run ++ [c]) cs
    else emitRun run ++ c :: numKeyGo [] cs

/-- `num_sort_key` from the source. -/
def num_sort_key (s : String) : String := String.mk (numKeyGo [] s.toList)

/-- Insert into a sorted list, keeping earlier-listed elements in front of
later ones with an equal key (matching the stability of Python's sort). -/
def insert_sorted (le : String → String → Bool) (x : String) : List String → List String
  | [] => [x]
  | y :: ys => if le x y then x :: y :: ys else y :: insert_sorted le x ys

/-- Lexicographic comparison of character lists by code point: the order
Python uses on strings. -/
def charListLt : List Char → List Char → Bool
  | _, [] => false
  | [], _ :: _ => true
  | a :: as, b :: bs =>
    if a.toNat < b.toNat then true
    else if b.toNat < a.toNat then false
    else charListLt as bs

def py_str_lt (a b : String) : Bool := charListLt a.toList b.toList

/-- `sorted(l, key=key)`: a stable sort comparing keys with the string
order. -/
def py_sorted (key : String → String) (l : List String) : List String :=
  l.foldr (insert_sorted (fun a b => py_str_lt (key a) (key b) || (key a == key b))) []

/-- The commit message built at line 205 of the source. -/
def commit_message (versions : List String) : String :=
  "Deployment of " ++ (if versions.length > 1 then "versions" else "version") ++ " "
    ++ String.intercalate ", " (py_sorted num_sort_key versions) ++ "."

/-- `'--{}={}'.format(k, v)` for an optional git flag. -/
def optFlag (k : String) : Option String → List String
  | Option.none => []
  | some v => ["--" ++ k ++ "=" ++ v]

/-- `git(*args, git_dir, work_tree, output, exit_code, cwd)` from the
source. -/
def git (env : Env) (args : List String) (git_dir work_tree : Option String)
    (output exit_code : Bool) (cwd : Option String) : M CommandRet :=
  command env ("git" :: (optFlag "git-dir" git_dir ++ optFlag "work-tree" work_tree ++ args))
    cwd output exit_code

/-- `git_get_repo(dir)`: `git rev-parse --git-dir` run inside `dir`; the
single output line is joined onto `dir`.  A multi-line output would make the
`path, = ...` unpacking raise, which is an uncaught exception. -/
def git_get_repo (env : Env) (dir : String) : M String :=
  M.bind (git env ["rev-parse", "--git-dir"] Option.none Option.none true false (some dir)) fun r =>
  match r with
  | CommandRet.output [l] => M.pur (pathJoin dir l)
  | _ => M.thr RunError.uncaught

/-- `s.rsplit(c, 1)` on a character list: split off the part after the last
occurrence of `c`, if any. -/
def rsplit1 (c : Char) (s : List Char) : List Char × Option (List Char) :=
  let aftRev := s.reverse.takeWhile (fun x => !(x == c))
  match s.reverse.dropWhile (fun x => !(x == c)) with
  | [] => (s, Option.none)
  | _ :: befRev => (befRev.reverse, some aftRev.reverse)

/-- `git_name_rev(repo, rev)`: resolve `rev` to a tag name via
`git name-rev --no-undefined --name-only --tags`, then strip an eventual
`'^0'` suffix; a different `'^'`-suffix fails the `assert rest == '0'`
(an uncaught `AssertionError`). -/
def git_name_rev (env : Env) (repo rev : String) : M String :=
  M.bind (git env ["name-rev", "--no-undefined", "--name-only", "--tags", rev]
      (some repo) Option.none true false Option.none) fun r =>
  match r with
  | CommandRet.output [l] =>
    match rsplit1 '^' l.toList with
    | (_, Option.none) => M.pur l
    | (bef, some rest) =>
      if rest = ['0'] then M.pur (String.mk bef) else M.thr RunError.uncaught
  | _ => M.thr RunError.uncaught

def git_tag (env : Env) (repo tag rev : String) : M Unit :=
  M.bind (git env ["tag", tag, rev] (some repo) Option.none false false Option.none) fun _ =>
  M.pur ()

def git_checkout (env : Env) (repo work_tree rev : String) : M Unit :=
  M.bind (git env ["checkout", rev, "."] (some repo) (some work_tree) false false Option.none)
    fun _ => M.pur ()

def git_reset (env : Env) (repo rev : String) : M Unit :=
  M.bind (git env ["reset", "--soft", rev] (some repo) Option.none false false Option.none)
    fun _ => M.pur ()

def git_clone (env : Env) (src_repo dst_repo : String) : M Unit :=
  M.bind (git env ["clone", "--mirror", src_repo, dst_repo] Option.none Option.none false false
    Option.none) fun _ => M.pur ()

def git_init (env : Env) (repo : String) : M Unit :=
  M.bind (git env ["init", "--bare", repo] Option.none Option.none false false Option.none)
    fun _ => M.pur ()

/-- `git_commit_all`: stage everything, then commit with the message. -/
def git_commit_all (env : Env) (repo work_tree message : String) : M Unit :=
  M.bind (git env ["add", "--all", "."] (some repo) (some work_tree) false false Option.none)
    fun _ =>
  M.bind (git env ["commit", "--message=" ++ message] (some repo) (some work_tree) false false
    Option.none) fun _ => M.pur ()

/-- A refspec argument to `git_push`: a plain string `r` is pushed as `r:r`,
a pair as `src:dst` (the `refs_fn` helper of the source). -/
inductive Ref where
  | str (s : String)
  | pair (src dst : String)
deriving Repr, DecidableEq

def refs_fn : Ref → String
  | Ref.str s => s ++ ":" ++ s
  | Ref.pair a b => a ++ ":" ++ b

def git_push (env : Env) (src_repo dst_repo : String) (refs : List Ref) : M Unit :=
  M.bind (git env ("push" :: dst_repo :: refs.map refs_fn) (some src_repo) Option.none false false
    Option.none) fun _ => M.pur ()

/-- `git_ref_exists(repo, ref)`: zero exit status of `git rev-parse ref`. -/
def git_ref_exists (env : Env) (repo ref : String) : M Bool :=
  M.bind (git env ["rev-parse", ref] (some repo) Option.none false true Option.none) fun r =>
  match r with
  | CommandRet.exitCode c => M.pur (c == 0)
  | _ => M.pur false

/-- `maven(dir, goal, **properties)`: `mvn -Dk=v ... goal` run inside
`dir`. -/
def maven (env : Env) (dir goal : String) (properties : List (String × String)) : M Unit :=
  M.bind (command env
      ("mvn" :: (properties.map fun kv => "-D" ++ kv.1 ++ "=" ++ kv.2) ++ [goal])
      (some dir) false false) fun _ => M.pur ()

def maven_versions_set (env : Env) (dir version : String) : M Unit :=
  maven env dir "versions:set" [("newVersion", version)]

def maven_deploy (env : Env) (dir deploy_dir : String) : M Unit :=
  maven env dir "deploy"
    [("altDeploymentRepository", "-::default::file://" ++ abspath env.cwd deploy_dir),
     ("maven.test.skip", "true")]

/-- Parsed command-line arguments. -/
structure Args where
  revisions : List String
  release : Option String
  branch : String
  debug : Bool
deriving Repr, DecidableEq

/-- The argparse loop: `--release V`, `--branch B` (also in `--flag=value`
form), `--debug`, and positional revision arguments.  An unknown option or a
missing option value makes argparse exit with status 2 (`usageError`). -/
def parseLoop : List String → List String → Option String → String → Bool →
    Except RunError (List String × Option String × String × Bool)
  | [], pos, rel, br, dbg => Except.ok (pos, rel, br, dbg)
  | a :: rest, pos, rel, br, dbg =>
    if a = "--debug" then parseLoop rest pos rel br true
    else if a = "--release" then
      match rest with
      | v :: rest2 => parseLoop rest2 pos (some v) br dbg
      | [] => Except.error RunError.usageError
    else if a = "--branch" then
      match rest with
      | v :: rest2 => parseLoop rest2 pos rel v dbg
      | [] => Except.error RunError.usageError
    else if strStarts "--release=" a then
      parseLoop rest pos (some (String.mk (a.toList.drop 10))) br dbg
    else if strStarts "--branch=" a then
      parseLoop rest pos rel (String.mk (a.toList.drop 9)) dbg
    else if strStarts "--" a then Except.error RunError.usageError
    else parseLoop rest (pos ++ [a]) rel br dbg

/-- `parse_args()`: `revisions` is a `nargs='*'` positional with default
`['HEAD']`, so it is set to `['HEAD']` whenever no positional argument is
given; then the script's own emptiness check runs. -/
def parse_args (argv : List String) : Except RunError Args :=
  match parseLoop argv [] Option.none "gh-pages" false with
  | Except.error e => Except.error e
  | Except.ok (pos, rel, br, dbg) =>
    let revisions := if pos.isEmpty then ["HEAD"] else pos
    if revisions.isEmpty ∧ rel.isNone then
      Except.error (RunError.userError "At least one revision to deploy or --release must be specified.")
    else Except.ok { revisions := revisions, release := rel, branch := br, debug := dbg }

/-- `make_temp_dir(debug)` wrapped around a body: in debug mode create the
retained base directory `tmp` and a fresh subdirectory that is never removed;
otherwise allocate a system temporary directory and remove it when the body
finishes, on every exit path. -/
def make_temp_dir {α : Type} (env : Env) (debug : Bool) (body : String → M α) : M α :=
  if debug then
    M.bind (M.emit (Ev.makedirs "tmp")) fun _ =>
    M.bind (M.emit (Ev.mkdtemp ("tmp/" ++ env.freshName))) fun _ =>
    body ("tmp/" ++ env.freshName)
  else
    M.bind (M.emit (Ev.mkdtemp env.sysTempDir)) fun _ =>
    M.fin (body env.sysTempDir) (Ev.rmtree env.sysTempDir)

/-- The `if args.release:` block of `main` (lines 162-174).  On success the
release revision is appended to the (shared) revision list, so the returned
list is what the build loop iterates. -/
def releasePhase (env : Env) (args : Args) (project_repo temp_dir : String) : M (List String) :=
  match args.release with
  | Option.none => M.pur args.revisions
  | some rel =>
    let release_checkout_dir := pathJoin temp_dir "release_checkout"
    let revision := "refs/tags/" ++ rel
    M.bind (M.emit (Ev.mkdir release_checkout_dir)) fun _ =>
    M.bind (git_checkout env project_repo release_checkout_dir "HEAD") fun _ =>
    M.bind (maven env release_checkout_dir "package" []) fun _ =>
    M.bind (git_tag env project_repo rel "HEAD") fun _ =>
    M.bind (git_push env project_repo "origin" [Ref.str revision]) fun _ =>
    M.pur (args.revisions ++ [revision])

/-- Lines 183-188 of `main`: dispatch on whether the branch exists in the
deployment repository. -/
def prepare_branch (env : Env) (deploy_repo deploy_repo_clone deploy_repo_checkout branch : String) :
    M Unit :=
  M.bind (git_ref_exists env deploy_repo branch) fun ex =>
  if ex then
    M.bind (git_clone env deploy_repo deploy_repo_clone) fun _ =>
    M.bind (git_checkout env deploy_repo_clone deploy_repo_checkout branch) fun _ =>
    git_reset env deploy_repo_clone branch
  else
    git_init env deploy_repo_clone

/-- `enumerate` starting at `i`. -/
def enumerate : Nat → List String → List (Nat × String)
  | _, [] => []
  | i, x :: xs => (i, x) :: enumerate (i + 1) xs

/-- The per-revision loop of `main` (lines 193-203): resolve the version,
check the revision out, stamp the version, deploy into the shared checkout,
and collect the version label. -/
def build_loop (env : Env) (temp_dir project_repo_clone deploy_repo_checkout : String) :
    List (Nat × String) → M (List String)
  | [] => M.pur []
  | (i, x) :: rest =>
    let deploy_checkout_dir := pathJoin temp_dir ("project_checkout_" ++ toString i)
    M.bind (git_name_rev env project_repo_clone x) fun version =>
    M.bind (M.emit (Ev.mkdir deploy_checkout_dir)) fun _ =>
    M.bind (git_checkout env project_repo_clone deploy_checkout_dir x) fun _ =>
    M.bind (maven_versions_set env deploy_checkout_dir version) fun _ =>
    M.bind (maven_deploy env deploy_checkout_dir deploy_repo_checkout) fun _ =>
    M.bind (build_loop env temp_dir project_repo_clone deploy_repo_checkout rest) fun versions =>
    M.pur (version :: versions)

/-- The body of the `with make_temp_dir(...)` block of `main`
(lines 162-207).  The source binds `project_repo_clone`, `deploy_repo_clone`
and `deploy_repo_checkout` to the three `temp_dir` subpaths used below; they
are written out here. -/
def mainBody (env : Env) (args : Args) (project_repo deploy_repo temp_dir : String) : M Unit :=
  M.bind (releasePhase env args project_repo temp_dir) fun revisions =>
  M.bind (M.emit (Ev.mkdir (pathJoin temp_dir "deploy_checkout"))) fun _ =>
  M.bind (prepare_branch env deploy_repo (pathJoin temp_dir "deploy_repo")
    (pathJoin temp_dir "deploy_checkout") args.branch) fun _ =>
  M.bind (git_clone env project_repo (pathJoin temp_dir "project_repo")) fun _ =>
  M.bind (build_loop env temp_dir (pathJoin temp_dir "project_repo")
    (pathJoin temp_dir "deploy_checkout") (enumerate 0 revisions)) fun versions =>
  M.bind (git_commit_all env (pathJoin temp_dir "deploy_repo")
    (pathJoin temp_dir "deploy_checkout") (commit_message versions)) fun _ =>
  M.bind (git_push env (pathJoin temp_dir "deploy_repo") deploy_repo
    [Ref.pair "HEAD" args.branch]) fun _ =>
  git_push env deploy_repo "origin" [Ref.str args.branch]

/-- `main()` (lines 155-209). -/
def mainRun (env : Env) (argv : List String) : M Unit :=
  M.bind (M.liftE (parse_args argv)) fun args =>
  M.bind (git_get_repo env env.cwd) fun project_repo =>
  M.bind (git_get_repo env env.scriptDir) fun deploy_repo =>
  make_temp_dir env args.debug fun temp_dir =>
    mainBody env args project_repo deploy_repo temp_dir

/-- The `__main__` handler (lines 212-219): exit status, the diagnostic line
written for the operator (without the program-name prefix), and the trace. -/
def runScript (env : Env) (argv : List String) : Nat × Option String × List Ev :=
  match mainRun env argv with
  | (Except.ok _, t) => (0, Option.none, t)
  | (Except.error (RunError.userError m), t) => (1, some ("Error: " ++ m), t)
  | (Except.error RunError.interrupted, t) => (2, some "Operation interrupted.", t)
  | (Except.error RunError.uncaught, t) => (1, Option.none, t)
  | (Except.error RunError.usageError, t) => (2, Option.none, t)

/-! ## Basic lemmas about the script monad -/

theorem M.bind_ok {α β : Type} (a : α) (t : List Ev) (f : α → M β) :
    M.bind (Except.ok a, t) f = ((f a).1, t ++ (f a).2) := by
  rcases h : f a with ⟨r, t2⟩
  simp [M.bind, h]

theorem M.bind_err {α β : Type} (e : RunError) (t : List Ev) (f : α → M β) :
    M.bind (Except.error e, t) f = (Except.error e, t) := rfl

theorem M.bind_res {α β : Type} (x : M α) (f : α → M β) :
    (M.bind x f).1 = match x.1 with
      | Except.ok a => (f a).1
      | Except.error e => Except.error e := by
  rcases x with ⟨r, t⟩
  cases r with
  | ok a => rw [M.bind_ok]
  | error e => rw [M.bind_err]

theorem M.bind_tr {α β : Type} (x : M α) (f : α → M β) :
    (M.bind x f).2 = match x.1 with
      | Except.ok a => x.2 ++ (f a).2
      | Except.error e => x.2 := by
  rcases x with ⟨r, t⟩
  cases r with
  | ok a => rw [M.bind_ok]
  | error e => rw [M.bind_err]

/-- All events in the trace of `x` satisfy `P`. -/
def TraceAll (P : Ev → Prop) {α : Type} (x : M α) : Prop := ∀ e ∈ x.2, P e

theorem traceAll_bind {P : Ev → Prop} {α β : Type} {x : M α} {f : α → M β}
    (hx : TraceAll P x) (hf : ∀ a, TraceAll P (f a)) : TraceAll P (M.bind x f) := by
  rcases x with ⟨r, t⟩
  cases r with
  | ok a =>
    rw [M.bind_ok]
    intro e he
    rcases List.mem_append.1 he with h | h
    · exact hx e h
    · exact hf a e h
  | error e2 =>
    rw [M.bind_err]
    exact hx

theorem traceAll_pur {P : Ev → Prop} {α : Type} (a : α) : TraceAll P (M.pur a) := by
  intro e he
  simp [M.pur] at he

theorem traceAll_thr {P : Ev → Prop} {α : Type} (er : RunError) :
    TraceAll P (M.thr er : M α) := by
  intro e he
  simp [M.thr] at he

theorem traceAll_liftE {P : Ev → Prop} {α : Type} (x : Except RunError α) :
    TraceAll P (M.liftE x) := by
  intro e he
  simp [M.liftE] at he

theorem traceAll_emit {P : Ev → Prop} {e : Ev} (h : P e) : TraceAll P (M.emit e) := by
  intro e2 he2
  simp [M.emit] at he2
  rwa [he2]

theorem traceAll_fin {P : Ev → Prop} {α : Type} {x : M α} {e : Ev}
    (hx : TraceAll P x) (he : P e) : TraceAll P (M.fin x e) := by
  intro e2 he2
  rcases List.mem_append.1 he2 with h | h
  · exact hx e2 h
  · simp at h
    rwa [h]

theorem command_tr (env : Env) (args : List String) (cwd : Option String)
    (output exit_code : Bool) :
    (command env args cwd output exit_code).2 = [Ev.cmd args cwd exit_code] := by
  unfold command
  rw [show M.emit (Ev.cmd args cwd exit_code) = (Except.ok (), [Ev.cmd args cwd exit_code]) from rfl,
    M.bind_ok]
  cases env.result args cwd with
  | interrupt => rfl
  | exits code out =>
    by_cases h : exit_code <;> by_cases h2 : code = 0 <;> simp [h, h2, M.pur, M.thr]

theorem traceAll_command {P : Ev → Prop} {env : Env} {args : List String} {cwd : Option String}
    {output exit_code : Bool} (h : P (Ev.cmd args cwd exit_code)) :
    TraceAll P (command env args cwd output exit_code) := by
  intro e he
  rw [command_tr] at he
  simp at he
  rwa [he]

theorem traceAll_git {P : Ev → Prop} {env : Env} {args : List String}
    {git_dir work_tree : Option String} {output exit_code : Bool} {cwd : Option String}
    (h : P (Ev.cmd ("git" :: (optFlag "git-dir" git_dir ++ optFlag "work-tree" work_tree ++ args))
      cwd exit_code)) :
    TraceAll P (git env args git_dir work_tree output exit_code cwd) :=
  traceAll_command h

/-! ## The abort specification

If a command that runs in raise-on-failure mode appears in the trace and the
environment makes it exit with a nonzero status, the computation's result is
the `UserError` carrying that command's diagnostic.  (Execution stops at the
first failing command, so such a command determines the outcome.) -/

def envFails (env : Env) (args : List String) (cwd : Option String) : Prop :=
  ∃ c out, env.result args cwd = CmdOutcome.exits c out ∧ c ≠ 0

def AbortSpec (env : Env) {α : Type} (x : M α) : Prop :=
  ∀ args cwd, Ev.cmd args cwd false ∈ x.2 → envFails env args cwd →
    ∃ c out, env.result args cwd = CmdOutcome.exits c out ∧ c ≠ 0 ∧
      x.1 = Except.error (RunError.userError (failMsg c args))

theorem abort_bind {env : Env} {α β : Type} {x : M α} {f : α → M β}
    (hx : AbortSpec env x) (hf : ∀ a, AbortSpec env (f a)) : AbortSpec env (M.bind x f) := by
  rcases x with ⟨r, t⟩
  cases r with
  | ok a =>
    intro args cwd hmem hfail
    rw [M.bind_ok] at hmem ⊢
    rcases List.mem_append.1 hmem with h | h
    · rcases hx args cwd h hfail with ⟨c, out, h1, h2, h3⟩
      exact absurd h3 (by simp)
    · rcases hf a args cwd h hfail with ⟨c, out, h1, h2, h3⟩
      exact ⟨c, out, h1, h2, h3⟩
  | error e2 =>
    intro args cwd hmem hfail
    rw [M.bind_err] at hmem ⊢
    rcases hx args cwd hmem hfail with ⟨c, out, h1, h2, h3⟩
    simp only at h3
    rw [Except.error.injEq] at h3
    exact ⟨c, out, h1, h2, by simp [h3]⟩

theorem abort_pur {env : Env} {α : Type} (a : α) : AbortSpec env (M.pur a) := by
  intro args cwd hmem
  simp [M.pur] at hmem

theorem abort_thr {env : Env} {α : Type} (er : RunError) : AbortSpec env (M.thr er : M α) := by
  intro args cwd hmem
  simp [M.thr] at hmem

theorem abort_liftE {env : Env} {α : Type} (x : Except RunError α) :
    AbortSpec env (M.liftE x) := by
  intro args cwd hmem
  simp [M.liftE] at hmem

theorem abort_emit_mkdir {env : Env} (d : String) : AbortSpec env (M.emit (Ev.mkdir d)) := by
  intro args cwd hmem
  simp [M.emit] at hmem

theorem abort_emit_makedirs {env : Env} (d : String) :
    AbortSpec env (M.emit (Ev.makedirs d)) := by
  intro args cwd hmem
  simp [M.emit] at hmem

theorem abort_emit_mkdtemp {env : Env} (d : String) :
    AbortSpec env (M.emit (Ev.mkdtemp d)) := by
  intro args cwd hmem
  simp [M.emit] at hmem

theorem abort_fin {env : Env} {α : Type} {x : M α} {d : String}
    (hx : AbortSpec env x) : AbortSpec env (M.fin x (Ev.rmtree d)) := by
  intro args cwd hmem hfail
  rcases List.mem_append.1 hmem with h | h
  · rcases hx args cwd h hfail with ⟨c, out, h1, h2, h3⟩
    exact ⟨c, out, h1, h2, h3⟩
  · simp at h

theorem abort_command {env : Env} (args : List String) (cwd : Option String) (output : Bool) :
    AbortSpec env (command env args cwd output false) := by
  intro args2 cwd2 hmem hfail
  rw [command_tr] at hmem
  have h := List.mem_singleton.1 hmem
  rw [Ev.cmd.injEq] at h
  obtain ⟨ha, hc, _⟩ := h
  subst ha
  subst hc
  rcases hfail with ⟨c, out, h1, h2⟩
  refine ⟨c, out, h1, h2, ?_⟩
  unfold command
  rw [show M.emit (Ev.cmd args2 cwd2 false) = (Except.ok (), [Ev.cmd args2 cwd2 false]) from rfl,
    M.bind_ok, h1]
  simp [h2, M.thr]

theorem abort_command_exitMode {env : Env} (args : List String) (cwd : Option String)
    (output : Bool) : AbortSpec env (command env args cwd output true) := by
  intro args2 cwd2 hmem hfail
  rw [command_tr] at hmem
  have h := List.mem_singleton.1 hmem
  rw [Ev.cmd.injEq] at h
  exact absurd h.2.2 (by simp)

theorem abort_of_nil_tr {env : Env} {α : Type} (x : M α) (h : x.2 = []) : AbortSpec env x := by
  intro args cwd hmem
  rw [h] at hmem
  simp at hmem

theorem abort_git {env : Env} (args : List String) (git_dir work_tree : Option String)
    (output : Bool) (cwd : Option String) :
    AbortSpec env (git env args git_dir work_tree output false cwd) :=
  abort_command _ _ _

theorem abort_git_exitMode {env : Env} (args : List String) (git_dir work_tree : Option String)
    (output : Bool) (cwd : Option String) :
    AbortSpec env (git env args git_dir work_tree output true cwd) :=
  abort_command_exitMode _ _ _

theorem abort_git_get_repo {env : Env} (dir : String) : AbortSpec env (git_get_repo env dir) := by
  unfold git_get_repo
  refine abort_bind (abort_git _ _ _ _ _) fun r => abort_of_nil_tr _ ?_
  split <;> simp [M.pur, M.thr]

theorem abort_git_name_rev {env : Env} (repo rev : String) :
    AbortSpec env (git_name_rev env repo rev) := by
  unfold git_name_rev
  refine abort_bind (abort_git _ _ _ _ _) fun r => abort_of_nil_tr _ ?_
  split
  · split
    · simp [M.pur]
    · split <;> simp [M.pur, M.thr]
  · simp [M.thr]

theorem abort_git_tag {env : Env} (repo tag rev : String) :
    AbortSpec env (git_tag env repo tag rev) :=
  abort_bind (abort_git _ _ _ _ _) fun _ => abort_pur _

theorem abort_git_checkout {env : Env} (repo work_tree rev : String) :
    AbortSpec env (git_checkout env repo work_tree rev) :=
  abort_bind (abort_git _ _ _ _ _) fun _ => abort_pur _

theorem abort_git_reset {env : Env} (repo rev : String) :
    AbortSpec env (git_reset env repo rev) :=
  abort_bind (abort_git _ _ _ _ _) fun _ => abort_pur _

theorem abort_git_clone {env : Env} (src_repo dst_repo : String) :
    AbortSpec env (git_clone env src_repo dst_repo) :=
  abort_bind (abort_git _ _ _ _ _) fun _ => abort_pur _

theorem abort_git_init {env : Env} (repo : String) : AbortSpec env (git_init env repo) :=
  abort_bind (abort_git _ _ _ _ _) fun _ => abort_pur _

theorem abort_git_commit_all {env : Env} (repo work_tree message : String) :
    AbortSpec env (git_commit_all env repo work_tree message) :=
  abort_bind (abort_git _ _ _ _ _) fun _ =>
    abort_bind (abort_git _ _ _ _ _) fun _ => abort_pur _

theorem abort_git_push {env : Env} (src_repo dst_repo : String) (refs : List Ref) :
    AbortSpec env (git_push env src_repo dst_repo refs) :=
  abort_bind (abort_git _ _ _ _ _) fun _ => abort_pur _

theorem abort_git_ref_exists {env : Env} (repo ref : String) :
    AbortSpec env (git_ref_exists env repo ref) := by
  unfold git_ref_exists
  refine abort_bind (abort_git_exitMode _ _ _ _ _) fun r => abort_of_nil_tr _ ?_
  split <;> simp [M.pur]

theorem abort_maven {env : Env} (dir goal : String) (properties : List (String × String)) :
    AbortSpec env (maven env dir goal properties) :=
  abort_bind (abort_command _ _ _) fun _ => abort_pur _

theorem abort_maven_versions_set {env : Env} (dir version : String) :
    AbortSpec env (maven_versions_set env dir version) :=
  abort_maven _ _ _

theorem abort_maven_deploy {env : Env} (dir deploy_dir : String) :
    AbortSpec env (maven_deploy env dir deploy_dir) :=
  abort_maven _ _ _

theorem abort_releasePhase {env : Env} (args : Args) (project_repo temp_dir : String) :
    AbortSpec env (releasePhase env args project_repo temp_dir) := by
  unfold releasePhase
  cases args.release with
  | none => exact abort_pur _
  | some rel =>
    exact abort_bind (abort_emit_mkdir _) fun _ =>
      abort_bind (abort_git_checkout _ _ _) fun _ =>
      abort_bind (abort_maven _ _ _) fun _ =>
      abort_bind (abort_git_tag _ _ _) fun _ =>
      abort_bind (abort_git_push _ _ _) fun _ => abort_pur _

theorem abort_prepare_branch {env : Env}
    (deploy_repo deploy_repo_clone deploy_repo_checkout branch : String) :
    AbortSpec env (prepare_branch env deploy_repo deploy_repo_clone deploy_repo_checkout branch) := by
  unfold prepare_branch
  refine abort_bind (abort_git_ref_exists _ _) fun ex => ?_
  cases ex with
  | true =>
    exact abort_bind (abort_git_clone _ _) fun _ =>
      abort_bind (abort_git_checkout _ _ _) fun _ => abort_git_reset _ _
  | false => exact abort_git_init _

theorem abort_build_loop {env : Env} (temp_dir project_repo_clone deploy_repo_checkout : String)
    (pairs : List (Nat × String)) :
    AbortSpec env (build_loop env temp_dir project_repo_clone deploy_repo_checkout pairs) := by
  induction pairs with
  | nil => exact abort_pur _
  | cons p rest ih =>
    rcases p with ⟨i, x⟩
    exact abort_bind (abort_git_name_rev _ _) fun version =>
      abort_bind (abort_emit_mkdir _) fun _ =>
      abort_bind (abort_git_checkout _ _ _) fun _ =>
      abort_bind (abort_maven_versions_set _ _) fun _ =>
      abort_bind (abort_maven_deploy _ _) fun _ =>
      abort_bind ih fun versions => abort_pur _

theorem abort_mainBody {env : Env} (args : Args) (project_repo deploy_repo temp_dir : String) :
    AbortSpec env (mainBody env args project_repo deploy_repo temp_dir) := by
  unfold mainBody
  exact abort_bind (abort_releasePhase _ _ _) fun revisions =>
    abort_bind (abort_emit_mkdir _) fun _ =>
    abort_bind (abort_prepare_branch _ _ _ _) fun _ =>
    abort_bind (abort_git_clone _ _) fun _ =>
    abort_bind (abort_build_loop _ _ _ _) fun versions =>
    abort_bind (abort_git_commit_all _ _ _) fun _ =>
    abort_bind (abort_git_push _ _ _) fun _ => abort_git_push _ _ _

theorem abort_make_temp_dir {env : Env} {α : Type} (debug : Bool) (body : String → M α)
    (hbody : ∀ d, AbortSpec env (body d)) :
    AbortSpec env (make_temp_dir env debug body) := by
  unfold make_temp_dir
  cases debug with
  | true =>
    exact abort_bind (abort_emit_makedirs _) fun _ =>
      abort_bind (abort_emit_mkdtemp _) fun _ => hbody _
  | false =>
    exact abort_bind (abort_emit_mkdtemp _) fun _ => abort_fin (hbody _)

theorem abort_mainRun (env : Env) (argv : List String) : AbortSpec env (mainRun env argv) := by
  unfold mainRun
  exact abort_bind (abort_liftE _) fun As =>
    abort_bind (abort_git_get_repo _) fun project_repo =>
    abort_bind (abort_git_get_repo _) fun deploy_repo =>
    abort_make_temp_dir _ _ fun temp_dir => abort_mainBody _ _ _ _

/-! ## String and list helpers -/

theorem toList_append (a b : String) : (a ++ b).toList = a.toList ++ b.toList := by
  cases a
  cases b
  rfl

theorem isPrefixOf_append_self (l t : List Char) : l.isPrefixOf (l ++ t) = true := by
  induction l with
  | nil => simp [List.isPrefixOf]
  | cons a l ih => simp [List.isPrefixOf, ih]

theorem strStarts_of_append (p s : String) : strStarts p (p ++ s) = true := by
  unfold strStarts
  rw [toList_append]
  exact isPrefixOf_append_self _ _

theorem append_ne_lit {p q : String} (s : String) (h : strStarts p q = false) :
    (p ++ s) ≠ q := by
  intro he
  rw [← he] at h
  rw [strStarts_of_append] at h
  exact Bool.noConfusion h

theorem beq_append_lit {p q : String} (s : String) (h : strStarts p q = false) :
    ((p ++ s) == q) = false := by
  rw [beq_eq_false_iff_ne]
  exact append_ne_lit s h

/-! ## Observable event predicates

Each program command shape is discriminated by argv positions that hold
literals in every call site, so that these predicates classify the events of
any run correctly, whatever the user-supplied revisions, branch and release
strings are. -/

/-- The `n`-th argv entry of a command event (`""` when out of range or not a
command event). -/
def argAt (n : Nat) : Ev → String
  | Ev.cmd a _ _ => a.getD n ""
  | _ => ""

/-- The last argv entry of a command event. -/
def lastArg : Ev → Option String
  | Ev.cmd a _ _ => a.getLast?
  | _ => Option.none

/-- The `git ... commit --message=...` invocation of `git_commit_all`. -/
def isGitCommitEv (e : Ev) : Bool :=
  (argAt 0 e == "git") && strStarts "--work-tree=" (argAt 2 e) && (argAt 3 e == "commit")

/-- A `git tag` invocation. -/
def isGitTagEv (e : Ev) : Bool :=
  (argAt 0 e == "git") && (argAt 2 e == "tag")

/-- A `git push` invocation. -/
def isGitPushEv (e : Ev) : Bool :=
  (argAt 0 e == "git") && (argAt 2 e == "push")

/-- Destination argument of a `git push` invocation. -/
def pushDestEv (e : Ev) : String := argAt 3 e

/-- A Builder (`mvn`) invocation. -/
def isMavenEv (e : Ev) : Bool := argAt 0 e == "mvn"

/-- A `mvn ... deploy` invocation. -/
def isMavenDeployEv (e : Ev) : Bool :=
  (argAt 0 e == "mvn") && (lastArg e == some "deploy")

/-- A `git push` invocation carrying a tag refspec. -/
def hasTagRef : Ev → Bool
  | Ev.cmd a _ _ => a.any fun s => strStarts "refs/tags/" s
  | _ => false

def isTagPushEv (e : Ev) : Bool := isGitPushEv e && hasTagRef e

/-- The revision a `git name-rev` command event resolves, if the event is
one. -/
def nrProj : Ev → Option String
  | Ev.cmd a _ _ => if a.getD 2 "" == "name-rev" then a.getLast? else Option.none
  | _ => Option.none

/-- The revisions resolved by `git name-rev` invocations of a trace, in
order. -/
def nameRevTargets (t : List Ev) : List String := t.filterMap nrProj

/-- The conclusion of the failure-atomicity claims: the event neither commits
in the scratch clone nor pushes anywhere but to the remote `origin` (so the
deployment repository's branch is untouched). -/
def NoBranchMutation (e : Ev) : Prop :=
  isGitCommitEv e = false ∧ (isGitPushEv e = true → pushDestEv e = "origin")

/-! ## The command-event shapes the program emits -/

def getRepoEv (d : String) : Ev := Ev.cmd ["git", "rev-parse", "--git-dir"] (some d) false

def nameRevEv (r x : String) : Ev :=
  Ev.cmd ["git", "--git-dir=" ++ r, "name-rev", "--no-undefined", "--name-only", "--tags", x]
    Option.none false

def checkoutEv (r w x : String) : Ev :=
  Ev.cmd ["git", "--git-dir=" ++ r, "--work-tree=" ++ w, "checkout", x, "."] Option.none false

def tagEv (r t x : String) : Ev :=
  Ev.cmd ["git", "--git-dir=" ++ r, "tag", t, x] Option.none false

def resetEv (r x : String) : Ev :=
  Ev.cmd ["git", "--git-dir=" ++ r, "reset", "--soft", x] Option.none false

def cloneEv (s d : String) : Ev := Ev.cmd ["git", "clone", "--mirror", s, d] Option.none false

def initEv (r : String) : Ev := Ev.cmd ["git", "init", "--bare", r] Option.none false

def addEv (r w : String) : Ev :=
  Ev.cmd ["git", "--git-dir=" ++ r, "--work-tree=" ++ w, "add", "--all", "."] Option.none false

def commitEv (r w m : String) : Ev :=
  Ev.cmd ["git", "--git-dir=" ++ r, "--work-tree=" ++ w, "commit", "--message=" ++ m]
    Option.none false

def pushEv (r d : String) (refs : List String) : Ev :=
  Ev.cmd ("git" :: ("--git-dir=" ++ r) :: "push" :: d :: refs) Option.none false

def refExEv (r f : String) : Ev :=
  Ev.cmd ["git", "--git-dir=" ++ r, "rev-parse", f] Option.none true

/-! ## Predicate values on those shapes -/

theorem ws_tag : strStarts "--work-tree=" "tag" = false := by decide
theorem ws_push : strStarts "--work-tree=" "push" = false := by decide
theorem ws_namerev : strStarts "--work-tree=" "name-rev" = false := by decide
theorem ws_reset : strStarts "--work-tree=" "reset" = false := by decide
theorem ws_mirror : strStarts "--work-tree=" "--mirror" = false := by decide
theorem ws_bare : strStarts "--work-tree=" "--bare" = false := by decide
theorem ws_revparse : strStarts "--work-tree=" "rev-parse" = false := by decide
theorem ws_gitdir : strStarts "--work-tree=" "--git-dir" = false := by decide

theorem nbm_mkdir (d : String) : NoBranchMutation (Ev.mkdir d) := by
  constructor <;> simp [isGitCommitEv, isGitPushEv, argAt]

theorem nbm_makedirs (d : String) : NoBranchMutation (Ev.makedirs d) := by
  constructor <;> simp [isGitCommitEv, isGitPushEv, argAt]

theorem nbm_mkdtemp (d : String) : NoBranchMutation (Ev.mkdtemp d) := by
  constructor <;> simp [isGitCommitEv, isGitPushEv, argAt]

theorem nbm_rmtree (d : String) : NoBranchMutation (Ev.rmtree d) := by
  constructor <;> simp [isGitCommitEv, isGitPushEv, argAt]

theorem nbm_getRepo (d : String) : NoBranchMutation (getRepoEv d) := by
  constructor <;> simp [isGitCommitEv, isGitPushEv, argAt, getRepoEv]

theorem nbm_nameRev (r x : String) : NoBranchMutation (nameRevEv r x) := by
  constructor <;> simp [isGitCommitEv, isGitPushEv, argAt, nameRevEv, ws_namerev]

theorem nbm_checkout (r w x : String) : NoBranchMutation (checkoutEv r w x) := by
  constructor <;>
    simp [isGitCommitEv, isGitPushEv, argAt, checkoutEv, beq_append_lit w ws_push]

theorem nbm_tag (r t x : String) : NoBranchMutation (tagEv r t x) := by
  constructor <;> simp [isGitCommitEv, isGitPushEv, argAt, tagEv, ws_tag]

theorem nbm_reset (r x : String) : NoBranchMutation (resetEv r x) := by
  constructor <;> simp [isGitCommitEv, isGitPushEv, argAt, resetEv, ws_reset]

theorem nbm_clone (s d : String) : NoBranchMutation (cloneEv s d) := by
  constructor <;> simp [isGitCommitEv, isGitPushEv, argAt, cloneEv, ws_mirror]

theorem nbm_init (r : String) : NoBranchMutation (initEv r) := by
  constructor <;> simp [isGitCommitEv, isGitPushEv, argAt, initEv, ws_bare]

theorem nbm_refEx (r f : String) : NoBranchMutation (refExEv r f) := by
  constructor <;> simp [isGitCommitEv, isGitPushEv, argAt, refExEv, ws_revparse]

theorem nbm_mvn (rest : List String) (c : Option String) : NoBranchMutation (Ev.cmd ("mvn" :: rest) c false) := by
  constructor <;> simp [isGitCommitEv, isGitPushEv, argAt]

theorem nbm_pushOrigin (r : String) (refs : List String) :
    NoBranchMutation (pushEv r "origin" refs) := by
  constructor
  · simp [isGitCommitEv, argAt, pushEv, ws_push]
  · intro _
    simp [pushDestEv, argAt, pushEv]

/-! ## Trace-shape lemmas for each phase -/

theorem traceAll_of_nil {P : Ev → Prop} {α : Type} (x : M α) (h : x.2 = []) : TraceAll P x := by
  intro e he
  rw [h] at he
  simp at he

theorem traceAll_git_get_repo2 {P : Ev → Prop} (env : Env) (dir : String)
    (h : P (getRepoEv dir)) : TraceAll P (git_get_repo env dir) := by
  unfold git_get_repo
  refine traceAll_bind (traceAll_git ?_) fun r => traceAll_of_nil _ ?_
  · simpa [optFlag, getRepoEv] using h
  · split <;> simp [M.pur, M.thr]

theorem traceAll_git_name_rev2 {P : Ev → Prop} (env : Env) (repo x : String)
    (h : P (nameRevEv repo x)) : TraceAll P (git_name_rev env repo x) := by
  unfold git_name_rev
  refine traceAll_bind (traceAll_git ?_) fun r => traceAll_of_nil _ ?_
  · simpa [optFlag, nameRevEv] using h
  · split
    · split
      · simp [M.pur]
      · split <;> simp [M.pur, M.thr]
    · simp [M.thr]

theorem traceAll_git_checkout2 {P : Ev → Prop} (env : Env) (repo w x : String)
    (h : P (checkoutEv repo w x)) : TraceAll P (git_checkout env repo w x) := by
  unfold git_checkout
  refine traceAll_bind (traceAll_git ?_) fun _ => traceAll_pur _
  simpa [optFlag, checkoutEv] using h

theorem traceAll_git_tag2 {P : Ev → Prop} (env : Env) (repo t x : String)
    (h : P (tagEv repo t x)) : TraceAll P (git_tag env repo t x) := by
  unfold git_tag
  refine traceAll_bind (traceAll_git ?_) fun _ => traceAll_pur _
  simpa [optFlag, tagEv] using h

theorem traceAll_git_reset2 {P : Ev → Prop} (env : Env) (repo x : String)
    (h : P (resetEv repo x)) : TraceAll P (git_reset env repo x) := by
  unfold git_reset
  refine traceAll_bind (traceAll_git ?_) fun _ => traceAll_pur _
  simpa [optFlag, resetEv] using h

theorem traceAll_git_clone2 {P : Ev → Prop} (env : Env) (s d : String)
    (h : P (cloneEv s d)) : TraceAll P (git_clone env s d) := by
  unfold git_clone
  refine traceAll_bind (traceAll_git ?_) fun _ => traceAll_pur _
  simpa [optFlag, cloneEv] using h

theorem traceAll_git_init2 {P : Ev → Prop} (env : Env) (r : String)
    (h : P (initEv r)) : TraceAll P (git_init env r) := by
  unfold git_init
  refine traceAll_bind (traceAll_git ?_) fun _ => traceAll_pur _
  simpa [optFlag, initEv] using h

theorem traceAll_git_commit_all2 {P : Ev → Prop} (env : Env) (r w m : String)
    (h1 : P (addEv r w)) (h2 : P (commitEv r w m)) :
    TraceAll P (git_commit_all env r w m) := by
  unfold git_commit_all
  refine traceAll_bind (traceAll_git ?_) fun _ =>
    traceAll_bind (traceAll_git ?_) fun _ => traceAll_pur _
  · simpa [optFlag, addEv] using h1
  · simpa [optFlag, commitEv] using h2

theorem traceAll_git_push2 {P : Ev → Prop} (env : Env) (src dst : String) (refs : List Ref)
    (h : P (pushEv src dst (refs.map refs_fn))) : TraceAll P (git_push env src dst refs) := by
  unfold git_push
  refine traceAll_bind (traceAll_git ?_) fun _ => traceAll_pur _
  simpa [optFlag, pushEv] using h

theorem traceAll_git_ref_exists2 {P : Ev → Prop} (env : Env) (repo f : String)
    (h : P (refExEv repo f)) : TraceAll P (git_ref_exists env repo f) := by
  unfold git_ref_exists
  refine traceAll_bind (traceAll_git ?_) fun r => traceAll_of_nil _ ?_
  · simpa [optFlag, refExEv] using h
  · split <;> simp [M.pur]

theorem traceAll_maven2 {P : Ev → Prop} (env : Env) (dir goal : String)
    (properties : List (String × String))
    (h : ∀ rest, P (Ev.cmd ("mvn" :: rest) (some dir) false)) :
    TraceAll P (maven env dir goal properties) := by
  unfold maven
  refine traceAll_bind (traceAll_command ?_) fun _ => traceAll_pur _
  exact h _

theorem traceAll_releasePhase2 {P : Ev → Prop} (env : Env) (args : Args) (pr td : String)
    (h1 : ∀ d, P (Ev.mkdir d))
    (h2 : ∀ w x, P (checkoutEv pr w x))
    (h3 : ∀ rest d, P (Ev.cmd ("mvn" :: rest) (some d) false))
    (h4 : ∀ t x, P (tagEv pr t x))
    (h5 : ∀ refs, P (pushEv pr "origin" refs)) :
    TraceAll P (releasePhase env args pr td) := by
  unfold releasePhase
  cases args.release with
  | none => exact traceAll_pur _
  | some rel =>
    exact traceAll_bind (traceAll_emit (h1 _)) fun _ =>
      traceAll_bind (traceAll_git_checkout2 _ _ _ _ (h2 _ _)) fun _ =>
      traceAll_bind (traceAll_maven2 _ _ _ _ (h3 · _)) fun _ =>
      traceAll_bind (traceAll_git_tag2 _ _ _ _ (h4 _ _)) fun _ =>
      traceAll_bind (traceAll_git_push2 _ _ _ _ (h5 _)) fun _ => traceAll_pur _

theorem traceAll_prepare_branch2 {P : Ev → Prop} (env : Env) (dr cl co br : String)
    (h1 : ∀ f, P (refExEv dr f))
    (h2 : ∀ s d, P (cloneEv s d))
    (h3 : ∀ w x, P (checkoutEv cl w x))
    (h4 : ∀ x, P (resetEv cl x))
    (h5 : ∀ r, P (initEv r)) :
    TraceAll P (prepare_branch env dr cl co br) := by
  unfold prepare_branch
  refine traceAll_bind (traceAll_git_ref_exists2 _ _ _ (h1 _)) fun ex => ?_
  cases ex with
  | true =>
    exact traceAll_bind (traceAll_git_clone2 _ _ _ (h2 _ _)) fun _ =>
      traceAll_bind (traceAll_git_checkout2 _ _ _ _ (h3 _ _)) fun _ =>
      traceAll_git_reset2 _ _ _ (h4 _)
  | false => exact traceAll_git_init2 _ _ (h5 _)

theorem traceAll_build_loop2 {P : Ev → Prop} (env : Env) (td prc drc : String)
    (pairs : List (Nat × String))
    (hnr : ∀ x, P (nameRevEv prc x))
    (hmk : ∀ d, P (Ev.mkdir d))
    (hco : ∀ w x, P (checkoutEv prc w x))
    (hmvn : ∀ rest d, P (Ev.cmd ("mvn" :: rest) (some d) false)) :
    TraceAll P (build_loop env td prc drc pairs) := by
  induction pairs with
  | nil => exact traceAll_pur _
  | cons p rest ih =>
    rcases p with ⟨i, x⟩
    exact traceAll_bind (traceAll_git_name_rev2 _ _ _ (hnr _)) fun version =>
      traceAll_bind (traceAll_emit (hmk _)) fun _ =>
      traceAll_bind (traceAll_git_checkout2 _ _ _ _ (hco _ _)) fun _ =>
      traceAll_bind (traceAll_maven2 _ _ _ _ (hmvn · _)) fun _ =>
      traceAll_bind (traceAll_maven2 _ _ _ _ (hmvn · _)) fun _ =>
      traceAll_bind ih fun _ => traceAll_pur _

/-! ## "Not a Builder invocation" facts for the git-only phases -/

theorem nomvn_getRepo (d : String) : isMavenEv (getRepoEv d) = false := by
  simp [isMavenEv, argAt, getRepoEv]

theorem nomvn_refEx (r f : String) : isMavenEv (refExEv r f) = false := by
  simp [isMavenEv, argAt, refExEv]

theorem nomvn_clone (s d : String) : isMavenEv (cloneEv s d) = false := by
  simp [isMavenEv, argAt, cloneEv]

theorem nomvn_checkout (r w x : String) : isMavenEv (checkoutEv r w x) = false := by
  simp [isMavenEv, argAt, checkoutEv]

theorem nomvn_reset (r x : String) : isMavenEv (resetEv r x) = false := by
  simp [isMavenEv, argAt, resetEv]

theorem nomvn_init (r : String) : isMavenEv (initEv r) = false := by
  simp [isMavenEv, argAt, initEv]

theorem nomvn_add (r w : String) : isMavenEv (addEv r w) = false := by
  simp [isMavenEv, argAt, addEv]

theorem nomvn_commit (r w m : String) : isMavenEv (commitEv r w m) = false := by
  simp [isMavenEv, argAt, commitEv]

theorem nomvn_push (r d : String) (refs : List String) : isMavenEv (pushEv r d refs) = false := by
  simp [isMavenEv, argAt, pushEv]

/-- If some Builder (`mvn`) invocation recorded in the trace of the main body
fails, then no event of that trace commits in the scratch clone or pushes
anywhere except to the remote `origin`. -/
theorem mainBody_fail_no_commit (env : Env) (args : Args) (pr dr td : String)
    (args2 : List String) (cwd2 : Option String)
    (hmem : Ev.cmd args2 cwd2 false ∈ (mainBody env args pr dr td).2)
    (hmvn : isMavenEv (Ev.cmd args2 cwd2 false) = true)
    (hfail : envFails env args2 cwd2) :
    ∀ e ∈ (mainBody env args pr dr td).2, NoBranchMutation e := by
  have taRel : TraceAll NoBranchMutation (releasePhase env args pr td) :=
    traceAll_releasePhase2 env args pr td nbm_mkdir (nbm_checkout pr)
      (fun rest d => nbm_mvn rest (some d)) (nbm_tag pr) (nbm_pushOrigin pr)
  have taPrep : TraceAll NoBranchMutation (prepare_branch env dr (pathJoin td "deploy_repo")
      (pathJoin td "deploy_checkout") args.branch) :=
    traceAll_prepare_branch2 env _ _ _ _ (nbm_refEx dr) nbm_clone
      (nbm_checkout _) (nbm_reset _) nbm_init
  have taClone : TraceAll NoBranchMutation (git_clone env pr (pathJoin td "project_repo")) :=
    traceAll_git_clone2 env _ _ (nbm_clone _ _)
  have taLoop : ∀ revs : List String, TraceAll NoBranchMutation
      (build_loop env td (pathJoin td "project_repo") (pathJoin td "deploy_checkout")
        (enumerate 0 revs)) :=
    fun revs => traceAll_build_loop2 env _ _ _ _ (nbm_nameRev _) nbm_mkdir
      (nbm_checkout _) (fun rest d => nbm_mvn rest (some d))
  have nmPrep : TraceAll (fun e => isMavenEv e = false)
      (prepare_branch env dr (pathJoin td "deploy_repo") (pathJoin td "deploy_checkout")
        args.branch) :=
    traceAll_prepare_branch2 env _ _ _ _ (nomvn_refEx dr) nomvn_clone
      (nomvn_checkout _) (nomvn_reset _) nomvn_init
  have nmClone : TraceAll (fun e => isMavenEv e = false)
      (git_clone env pr (pathJoin td "project_repo")) :=
    traceAll_git_clone2 env _ _ (nomvn_clone _ _)
  have nmCommit : ∀ m, TraceAll (fun e => isMavenEv e = false)
      (git_commit_all env (pathJoin td "deploy_repo") (pathJoin td "deploy_checkout") m) :=
    fun m => traceAll_git_commit_all2 env _ _ _ (nomvn_add _ _) (nomvn_commit _ _ _)
  have nmPush : ∀ s d refs, TraceAll (fun e => isMavenEv e = false) (git_push env s d refs) :=
    fun s d refs => traceAll_git_push2 env _ _ _ (nomvn_push _ _ _)
  have habortRel := @abort_releasePhase env args pr td
  have habortLoop := fun revs : List String =>
    @abort_build_loop env td (pathJoin td "project_repo")
      (pathJoin td "deploy_checkout") (enumerate 0 revs)
  intro e he
  unfold mainBody at he hmem
  rcases hR : releasePhase env args pr td with ⟨rR, tR⟩
  rw [hR] at he hmem taRel habortRel
  cases rR with
  | error er =>
    rw [M.bind_err] at he
    exact taRel e he
  | ok revisions =>
    simp only [M.bind_ok] at he hmem
    rcases List.mem_append.1 he with he1 | he
    · exact taRel e he1
    · -- next: the mkdir of the deploy checkout directory
      simp only [M.emit, M.bind_ok] at he hmem
      rcases List.mem_append.1 he with he1 | he
      · rcases List.mem_singleton.1 he1 with rfl
        exact nbm_mkdir _
      · rcases hP : prepare_branch env dr (pathJoin td "deploy_repo")
            (pathJoin td "deploy_checkout") args.branch with ⟨rP, tP⟩
        rw [hP] at he hmem taPrep nmPrep
        cases rP with
        | error er =>
          rw [M.bind_err] at he
          exact taPrep e he
        | ok u =>
          simp only [M.bind_ok] at he hmem
          rcases List.mem_append.1 he with he1 | he
          · exact taPrep e he1
          · rcases hC : git_clone env pr (pathJoin td "project_repo") with ⟨rC, tC⟩
            rw [hC] at he hmem taClone nmClone
            cases rC with
            | error er =>
              rw [M.bind_err] at he
              exact taClone e he
            | ok u2 =>
              simp only [M.bind_ok] at he hmem
              rcases List.mem_append.1 he with he1 | he
              · exact taClone e he1
              · rcases hL : build_loop env td (pathJoin td "project_repo")
                    (pathJoin td "deploy_checkout") (enumerate 0 revisions) with ⟨rL, tL⟩
                have taLoopR := taLoop revisions
                have habortLoopR := habortLoop revisions
                rw [hL] at he hmem taLoopR habortLoopR
                cases rL with
                | error er =>
                  rw [M.bind_err] at he
                  exact taLoopR e he
                | ok versions =>
                  -- the commit-and-push tail is reached: derive a
                  -- contradiction from the failing Builder command
                  exfalso
                  simp only [M.bind_ok] at hmem
                  rcases List.mem_append.1 hmem with hm | hm
                  · rcases habortRel args2 cwd2 hm hfail with ⟨c, out, _, _, h3⟩
                    exact absurd h3 (by simp)
                  rcases List.mem_append.1 hm with hm | hm
                  · exact Ev.noConfusion (List.mem_singleton.1 hm)
                  rcases List.mem_append.1 hm with hm | hm
                  · have := nmPrep _ hm
                    simp only [hmvn] at this
                    exact Bool.noConfusion this
                  rcases List.mem_append.1 hm with hm | hm
                  · have := nmClone _ hm
                    simp only [hmvn] at this
                    exact Bool.noConfusion this
                  rcases List.mem_append.1 hm with hm | hm
                  · rcases habortLoopR args2 cwd2 hm hfail with ⟨c, out, _, _, h3⟩
                    exact absurd h3 (by simp)
                  · rcases hCm : git_commit_all env (pathJoin td "deploy_repo")
                        (pathJoin td "deploy_checkout") (commit_message versions) with ⟨rCm, tCm⟩
                    have nmCommitR := nmCommit (commit_message versions)
                    rw [hCm] at hm nmCommitR
                    cases rCm with
                    | error er =>
                      rw [M.bind_err] at hm
                      have := nmCommitR _ hm
                      simp only [hmvn] at this
                      exact Bool.noConfusion this
                    | ok u3 =>
                      simp only [M.bind_ok] at hm
                      rcases List.mem_append.1 hm with hm | hm
                      · have := nmCommitR _ hm
                        simp only [hmvn] at this
                        exact Bool.noConfusion this
                      · rcases hP1 : git_push env (pathJoin td "deploy_repo") dr
                            [Ref.pair "HEAD" args.branch] with ⟨rP1, tP1⟩
                        have nmPush1 := nmPush (pathJoin td "deploy_repo") dr
                          [Ref.pair "HEAD" args.branch]
                        rw [hP1] at hm nmPush1
                        cases rP1 with
                        | error er =>
                          rw [M.bind_err] at hm
                          have := nmPush1 _ hm
                          simp only [hmvn] at this
                          exact Bool.noConfusion this
                        | ok u4 =>
                          simp only [M.bind_ok] at hm
                          rcases List.mem_append.1 hm with hm | hm
                          · have := nmPush1 _ hm
                            simp only [hmvn] at this
                            exact Bool.noConfusion this
                          · have := nmPush dr "origin" [Ref.str args.branch] _ hm
                            simp only [hmvn] at this
                            exact Bool.noConfusion this

/-- Lift of `mainBody_fail_no_commit` to the whole run. -/
theorem mainRun_fail_no_commit (env : Env) (argv : List String)
    (args2 : List String) (cwd2 : Option String)
    (hmem : Ev.cmd args2 cwd2 false ∈ (mainRun env argv).2)
    (hmvn : isMavenEv (Ev.cmd args2 cwd2 false) = true)
    (hfail : envFails env args2 cwd2) :
    ∀ e ∈ (mainRun env argv).2, NoBranchMutation e := by
  intro e he
  unfold mainRun at he hmem
  cases hA : parse_args argv with
  | error er =>
    rw [show M.liftE (parse_args argv) = (Except.error er, []) from by rw [hA]; rfl,
      M.bind_err] at he
    simp at he
  | ok args =>
    rw [show M.liftE (parse_args argv) = (Except.ok args, []) from by rw [hA]; rfl] at he hmem
    simp only [M.bind_ok, List.nil_append] at he hmem
    have ta1 : TraceAll NoBranchMutation (git_get_repo env env.cwd) :=
      traceAll_git_get_repo2 env _ (nbm_getRepo _)
    have nm1 : TraceAll (fun x => isMavenEv x = false) (git_get_repo env env.cwd) :=
      traceAll_git_get_repo2 env _ (nomvn_getRepo _)
    rcases h1 : git_get_repo env env.cwd with ⟨r1, t1⟩
    rw [h1] at he hmem ta1 nm1
    cases r1 with
    | error er =>
      rw [M.bind_err] at he
      exact ta1 e he
    | ok pr =>
      simp only [M.bind_ok] at he hmem
      have ta2 : TraceAll NoBranchMutation (git_get_repo env env.scriptDir) :=
        traceAll_git_get_repo2 env _ (nbm_getRepo _)
      have nm2 : TraceAll (fun x => isMavenEv x = false) (git_get_repo env env.scriptDir) :=
        traceAll_git_get_repo2 env _ (nomvn_getRepo _)
      rcases List.mem_append.1 he with he1 | he
      · exact ta1 e he1
      rcases h2 : git_get_repo env env.scriptDir with ⟨r2, t2⟩
      rw [h2] at he hmem ta2 nm2
      cases r2 with
      | error er =>
        rw [M.bind_err] at he
        exact ta2 e he
      | ok dr =>
        simp only [M.bind_ok] at he hmem
        rcases List.mem_append.1 he with he1 | he
        · exact ta2 e he1
        -- locate the failing Builder event inside the temp-dir body
        have hmemBody : Ev.cmd args2 cwd2 false ∈
            (mainBody env args pr dr (if args.debug then "tmp/" ++ env.freshName
              else env.sysTempDir)).2 := by
          rcases List.mem_append.1 hmem with hm | hm
          · have := nm1 _ hm
            simp only [hmvn] at this
            exact Bool.noConfusion this
          rcases List.mem_append.1 hm with hm | hm
          · have := nm2 _ hm
            simp only [hmvn] at this
            exact Bool.noConfusion this
          · unfold make_temp_dir at hm
            cases hdbg : args.debug with
            | true =>
              rw [hdbg] at hm
              simp only [if_pos rfl, M.emit, M.bind_ok] at hm
              rcases List.mem_append.1 hm with hm | hm
              · exact Ev.noConfusion (List.mem_singleton.1 hm)
              rcases List.mem_append.1 hm with hm | hm
              · exact Ev.noConfusion (List.mem_singleton.1 hm)
              · simpa [hdbg] using hm
            | false =>
              rw [hdbg] at hm
              simp only [Bool.false_eq_true, if_false, M.emit, M.bind_ok, M.fin] at hm
              rcases List.mem_append.1 hm with hm | hm
              · exact Ev.noConfusion (List.mem_singleton.1 hm)
              rcases List.mem_append.1 hm with hm | hm
              · simpa [hdbg] using hm
              · exact Ev.noConfusion (List.mem_singleton.1 hm)
        have hbody := mainBody_fail_no_commit env args pr dr
          (if args.debug then "tmp/" ++ env.freshName else env.sysTempDir)
          args2 cwd2 hmemBody hmvn hfail
        unfold make_temp_dir at he
        cases hdbg : args.debug with
        | true =>
          rw [hdbg] at he
          simp only [if_pos rfl, M.emit, M.bind_ok] at he
          rcases List.mem_append.1 he with he1 | he
          · rcases List.mem_singleton.1 he1 with rfl
            exact nbm_makedirs _
          rcases List.mem_append.1 he with he1 | he
          · rcases List.mem_singleton.1 he1 with rfl
            exact nbm_mkdtemp _
          · refine hbody e ?_
            simpa [hdbg] using he
        | false =>
          rw [hdbg] at he
          simp only [Bool.false_eq_true, if_false, M.emit, M.bind_ok, M.fin] at he
          rcases List.mem_append.1 he with he1 | he
          · rcases List.mem_singleton.1 he1 with rfl
            exact nbm_mkdtemp _
          rcases List.mem_append.1 he with he1 | he
          · refine hbody e ?_
            simpa [hdbg] using he1
          · rcases List.mem_singleton.1 he with rfl
            exact nbm_rmtree _

/-! ## Relating `runScript` to `mainRun` -/

theorem runScript_tr (env : Env) (argv : List String) :
    (runScript env argv).2.2 = (mainRun env argv).2 := by
  unfold runScript
  rcases mainRun env argv with ⟨r, t⟩
  cases r with
  | ok a => rfl
  | error e => cases e <;> rfl

theorem runScript_userError (env : Env) (argv : List String) (m : String)
    (h : (mainRun env argv).1 = Except.error (RunError.userError m)) :
    (runScript env argv).1 = 1 ∧ (runScript env argv).2.1 = some ("Error: " ++ m) := by
  unfold runScript
  rcases hM : mainRun env argv with ⟨r, t⟩
  rw [hM] at h
  simp only at h
  subst h
  exact ⟨rfl, rfl⟩

theorem isMavenEv_of_deploy {e : Ev} (h : isMavenDeployEv e = true) : isMavenEv e = true := by
  unfold isMavenDeployEv at h
  rw [Bool.and_eq_true] at h
  exact h.1

/-- C1.  If the deploy build of any revision in the batch fails (the Builder
exits non-zero), then no commit is created in the scratch clone, the
artifact-history branch in the deployment repository is unchanged (every push
recorded in the trace goes to the remote `origin`, never to the deployment
repository), and the process exits with code 1 after printing a diagnostic
naming the failed command. -/
theorem c1_deploy_build_failure_is_atomic (env : Env) (argv : List String)
    (args2 : List String) (cwd2 : Option String)
    (hmem : Ev.cmd args2 cwd2 false ∈ (runScript env argv).2.2)
    (hdep : isMavenDeployEv (Ev.cmd args2 cwd2 false) = true)
    (hfail : envFails env args2 cwd2) :
    (∀ e ∈ (runScript env argv).2.2,
      isGitCommitEv e = false ∧ (isGitPushEv e = true → pushDestEv e = "origin")) ∧
    (runScript env argv).1 = 1 ∧
    (∃ c out, env.result args2 cwd2 = CmdOutcome.exits c out ∧ c ≠ 0 ∧
      (runScript env argv).2.1 = some ("Error: " ++ failMsg c args2)) := by
  rw [runScript_tr] at hmem
  have hmvn := isMavenEv_of_deploy hdep
  have hnbm := mainRun_fail_no_commit env argv args2 cwd2 hmem hmvn hfail
  rcases abort_mainRun env argv args2 cwd2 hmem hfail with ⟨c, out, h1, h2, h3⟩
  rcases runScript_userError env argv _ h3 with ⟨h4, h5⟩
  refine ⟨?_, h4, c, out, h1, h2, h5⟩
  intro e he
  rw [runScript_tr] at he
  exact hnbm e he

/-- Environment for the concrete failing-deploy run: every command succeeds
with a single output line `x`, except any `mvn ... deploy`, which exits 1. -/
def envC1 : Env :=
  { result := fun args _ =>
      if args.getLast? = some "deploy" then CmdOutcome.exits 1 []
      else CmdOutcome.exits 0 ["x"]
    cwd := "/w"
    scriptDir := "/s"
    sysTempDir := "/t"
    freshName := "f" }

theorem c1_witness :
    (runScript envC1 ["r1"]).1 = 1 ∧
    (∀ e ∈ (runScript envC1 ["r1"]).2.2, isGitCommitEv e = false) := by
  have h := c1_deploy_build_failure_is_atomic envC1 ["r1"]
    ["mvn", "-DaltDeploymentRepository=-::default::file:///t/deploy_checkout",
     "-Dmaven.test.skip=true", "deploy"]
    (some "/t/project_checkout_0")
    (by decide) (by decide) ⟨1, [], by decide, by decide⟩
  exact ⟨h.2.1, fun e he => (h.1 e he).1⟩

/-! ## Counting commit commands -/

theorem countP_zero_of_traceAll {p : Ev → Bool} {α : Type} (x : M α)
    (h : TraceAll (fun e => p e = false) x) : x.2.countP p = 0 :=
  List.countP_eq_zero.2 fun a ha => by rw [h a ha]; simp

theorem countP_bind_le {p : Ev → Bool} {α β : Type} (x : M α) (f : α → M β) (n m : Nat)
    (hx : x.2.countP p ≤ n) (hf : ∀ a, (f a).2.countP p ≤ m) :
    (M.bind x f).2.countP p ≤ n + m := by
  rcases x with ⟨r, t⟩
  cases r with
  | ok a =>
    rw [M.bind_ok]
    simp only [List.countP_append]
    exact Nat.add_le_add hx (hf a)
  | error e =>
    rw [M.bind_err]
    exact le_trans hx (Nat.le_add_right _ _)

theorem nocommit_push (r d : String) (refs : List String) :
    isGitCommitEv (pushEv r d refs) = false := by
  simp [isGitCommitEv, argAt, pushEv, ws_push]

theorem nocommit_add (r w : String) : isGitCommitEv (addEv r w) = false := by
  simp [isGitCommitEv, argAt, addEv]

theorem countP_commit_all (env : Env) (r w m : String) :
    ((git_commit_all env r w m).2.countP fun e => isGitCommitEv e) ≤ 1 := by
  unfold git_commit_all
  refine le_trans (countP_bind_le _ _ 0 1 ?_ fun _ => ?_) (by norm_num)
  · rw [show git env ["add", "--all", "."] (some r) (some w) false false Option.none =
        command env ("git" :: (optFlag "git-dir" (some r) ++ optFlag "work-tree" (some w)
          ++ ["add", "--all", "."])) Option.none false false from rfl]
    rw [countP_zero_of_traceAll _ (traceAll_command (by
      show isGitCommitEv _ = false
      simpa [optFlag, addEv] using nocommit_add r w))]
  · refine le_trans (countP_bind_le _ _ 1 0 ?_ fun _ => ?_) (by norm_num)
    · rw [show git env ["commit", "--message=" ++ m] (some r) (some w) false false Option.none =
          command env ("git" :: (optFlag "git-dir" (some r) ++ optFlag "work-tree" (some w)
            ++ ["commit", "--message=" ++ m])) Option.none false false from rfl, command_tr]
      exact le_trans (List.countP_le_length _) (by simp)
    · simp [M.pur]

theorem countP_mainRun_commit (env : Env) (argv : List String) :
    ((mainRun env argv).2.countP fun e => isGitCommitEv e) ≤ 1 := by
  have hz : ∀ {α : Type} (x : M α), TraceAll (fun e => isGitCommitEv e = false) x →
      (x.2.countP fun e => isGitCommitEv e) = 0 := fun x h => countP_zero_of_traceAll x h
  unfold mainRun
  refine le_trans (countP_bind_le _ _ 0 1 (by simp [M.liftE]) fun args => ?_) (by norm_num)
  refine le_trans (countP_bind_le _ _ 0 1
    (hz _ (traceAll_git_get_repo2 env _ (nbm_getRepo _).1)).le fun pr => ?_) (by norm_num)
  refine le_trans (countP_bind_le _ _ 0 1
    (hz _ (traceAll_git_get_repo2 env _ (nbm_getRepo _).1)).le fun dr => ?_) (by norm_num)
  unfold make_temp_dir
  have hbody : ∀ td, ((mainBody env args pr dr td).2.countP fun e => isGitCommitEv e) ≤ 1 := by
    intro td
    unfold mainBody
    refine le_trans (countP_bind_le _ _ 0 1 (hz _ (traceAll_releasePhase2 env args pr td
      (fun d => (nbm_mkdir d).1) (fun w x => (nbm_checkout pr w x).1)
      (fun rest d => (nbm_mvn rest (some d)).1) (fun t x => (nbm_tag pr t x).1)
      (fun refs => (nbm_pushOrigin pr refs).1))).le fun revisions => ?_) (by norm_num)
    refine le_trans (countP_bind_le _ _ 0 1 (hz _ (traceAll_emit (nbm_mkdir _).1)).le
      fun _ => ?_) (by norm_num)
    refine le_trans (countP_bind_le _ _ 0 1 (hz _ (traceAll_prepare_branch2 env _ _ _ _
      (fun f => (nbm_refEx dr f).1) (fun s d => (nbm_clone s d).1)
      (fun w x => (nbm_checkout _ w x).1) (fun x => (nbm_reset _ x).1)
      (fun rr => (nbm_init rr).1))).le fun _ => ?_) (by norm_num)
    refine le_trans (countP_bind_le _ _ 0 1
      (hz _ (traceAll_git_clone2 env _ _ (nbm_clone _ _).1)).le fun _ => ?_) (by norm_num)
    refine le_trans (countP_bind_le _ _ 0 1 (hz _ (traceAll_build_loop2 env _ _ _ _
      (fun x => (nbm_nameRev _ x).1) (fun d => (nbm_mkdir d).1)
      (fun w x => (nbm_checkout _ w x).1)
      (fun rest d => (nbm_mvn rest (some d)).1))).le fun versions => ?_) (by norm_num)
    refine le_trans (countP_bind_le _ _ 1 0 (countP_commit_all env _ _ _) fun _ => ?_)
      (by norm_num)
    refine le_trans (countP_bind_le _ _ 0 0
      (hz _ (traceAll_git_push2 env _ _ _ (nocommit_push _ _ _))).le fun _ => ?_) (by norm_num)
    exact (hz _ (traceAll_git_push2 env _ _ _ (nocommit_push _ _ _))).le
  cases args.debug with
  | true =>
    simp only [reduceIte]
    refine le_trans (countP_bind_le _ _ 0 1 (hz _ (traceAll_emit (nbm_makedirs _).1)).le
      fun _ => ?_) (by norm_num)
    refine le_trans (countP_bind_le _ _ 0 1 (hz _ (traceAll_emit (nbm_mkdtemp _).1)).le
      fun _ => ?_) (by norm_num)
    exact hbody _
  | false =>
    simp only [Bool.false_eq_true, reduceIte]
    refine le_trans (countP_bind_le _ _ 0 1 (hz _ (traceAll_emit (nbm_mkdtemp _).1)).le
      fun _ => ?_) (by norm_num)
    rw [show ((M.fin (mainBody env args pr dr env.sysTempDir) (Ev.rmtree env.sysTempDir)).2
      = (mainBody env args pr dr env.sysTempDir).2 ++ [Ev.rmtree env.sysTempDir]) from rfl]
    rw [List.countP_append]
    have : ([Ev.rmtree env.sysTempDir].countP fun e => isGitCommitEv e) = 0 := by
      simp [List.countP_cons, isGitCommitEv, argAt]
    rw [this]
    simpa using hbody env.sysTempDir

/-- C3.  In every run, the stage-and-commit operation on the artifact-branch
checkout is executed at most once (at most one `git commit` command appears
in the trace), and it is never executed if any build step (`versions:set`,
`package`, or `deploy`; all are `mvn` invocations) of any revision in the
batch raised a build failure. -/
theorem c3_commit_at_most_once_never_after_build_failure (env : Env) (argv : List String) :
    ((runScript env argv).2.2.countP fun e => isGitCommitEv e) ≤ 1 ∧
    (∀ args2 cwd2, Ev.cmd args2 cwd2 false ∈ (runScript env argv).2.2 →
      isMavenEv (Ev.cmd args2 cwd2 false) = true → envFails env args2 cwd2 →
      ∀ e ∈ (runScript env argv).2.2, isGitCommitEv e = false) := by
  constructor
  · rw [runScript_tr]
    exact countP_mainRun_commit env argv
  · intro args2 cwd2 hmem hm hf e he
    rw [runScript_tr] at hmem he
    exact (mainRun_fail_no_commit env argv args2 cwd2 hmem hm hf e he).1

/-- Environment for the concrete failing-set-version run. -/
def envC3 : Env :=
  { result := fun args _ =>
      if args.getLast? = some "versions:set" then CmdOutcome.exits 2 []
      else CmdOutcome.exits 0 ["x"]
    cwd := "/w"
    scriptDir := "/s"
    sysTempDir := "/t"
    freshName := "f" }

theorem c3_witness :
    ((runScript envC3 ["r1"]).2.2.countP fun e => isGitCommitEv e) ≤ 1 ∧
    (∀ e ∈ (runScript envC3 ["r1"]).2.2, isGitCommitEv e = false) := by
  have h := c3_commit_at_most_once_never_after_build_failure envC3 ["r1"]
  exact ⟨h.1, h.2 ["mvn", "-DnewVersion=x", "versions:set"] (some "/t/project_checkout_0")
    (by decide) (by decide) ⟨2, [], by decide, by decide⟩⟩

/-- C4.  The version labels in the commit message are sorted with the
numeric-aware key: `["v2", "v10", "v1"]` sorts to `["v1", "v2", "v10"]` (not
the lexicographic order `["v1", "v10", "v2"]`, which sorting the labels
directly would give), and the commit message lists them in that order. -/
theorem c4_numeric_aware_sort :
    py_sorted num_sort_key ["v2", "v10", "v1"] = ["v1", "v2", "v10"] ∧
    commit_message ["v2", "v10", "v1"] = "Deployment of versions v1, v2, v10." ∧
    py_sorted (fun s => s) ["v2", "v10", "v1"] = ["v1", "v10", "v2"] := by
  refine ⟨by decide, ?_, by decide⟩
  decide

/-! ## Computing `rsplit1` -/

theorem takeWhile_all_append (p : Char → Bool) (l : List Char) (hl : ∀ a ∈ l, p a = true)
    (x : Char) (hx : p x = false) (rest : List Char) :
    (l ++ x :: rest).takeWhile p = l ∧ (l ++ x :: rest).dropWhile p = x :: rest := by
  induction l with
  | nil => simp [List.takeWhile_cons, List.dropWhile_cons, hx]
  | cons a l ih =>
    have ha := hl a (List.mem_cons_self a l)
    obtain ⟨h1, h2⟩ := ih fun b hb => hl b (List.mem_cons_of_mem _ hb)
    simp [List.takeWhile_cons, List.dropWhile_cons, ha, h1, h2]

theorem rsplit1_none (c : Char) (s : List Char) (h : ∀ a ∈ s, (a == c) = false) :
    rsplit1 c s = (s, Option.none) := by
  unfold rsplit1
  rw [show s.reverse.dropWhile (fun x => !(x == c)) = [] from
    List.dropWhile_eq_nil_iff.2 fun a ha => by rw [h a (List.mem_reverse.1 ha)]; rfl]

theorem rsplit1_last (c : Char) (pre suf : List Char) (h : ∀ a ∈ suf, (a == c) = false) :
    rsplit1 c (pre ++ c :: suf) = (pre, some suf) := by
  unfold rsplit1
  rw [show (pre ++ c :: suf).reverse = suf.reverse ++ c :: pre.reverse from by
    simp [List.reverse_append]]
  obtain ⟨h1, h2⟩ := takeWhile_all_append (fun x => !(x == c)) suf.reverse
    (fun a ha => by simp [h a (List.mem_reverse.1 ha)]) c (by simp) pre.reverse
  rw [h1, h2]
  simp

theorem mk_toList (s : String) : String.mk s.toList = s := by
  cases s
  rfl

/-- Environment in which every command exits 0 with a single output line. -/
def envAllOk : Env :=
  { result := fun _ _ => CmdOutcome.exits 0 ["x"]
    cwd := "/w"
    scriptDir := "/s"
    sysTempDir := "/t"
    freshName := "f" }

/-- C5.  Preparing the artifact-branch workspace dispatches on branch
existence: when `git rev-parse <branch>` succeeds in the deployment
repository, the repository is mirror-cloned into the scratch clone, the
branch is checked out into the artifact-branch checkout directory and the
scratch clone is soft-reset to the branch tip; when the branch does not
exist, an empty bare repository is initialized as the scratch clone. -/
theorem c5_prepare_branch_dispatch (env : Env) (dr cl co br : String) :
    (∀ out out2 out3 out4,
      env.result ["git", "--git-dir=" ++ dr, "rev-parse", br] Option.none
        = CmdOutcome.exits 0 out →
      env.result ["git", "clone", "--mirror", dr, cl] Option.none
        = CmdOutcome.exits 0 out2 →
      env.result ["git", "--git-dir=" ++ cl, "--work-tree=" ++ co, "checkout", br, "."]
        Option.none = CmdOutcome.exits 0 out3 →
      env.result ["git", "--git-dir=" ++ cl, "reset", "--soft", br] Option.none
        = CmdOutcome.exits 0 out4 →
      prepare_branch env dr cl co br =
        (Except.ok (), [refExEv dr br, cloneEv dr cl, checkoutEv cl co br, resetEv cl br])) ∧
    (∀ c out out5, c ≠ 0 →
      env.result ["git", "--git-dir=" ++ dr, "rev-parse", br] Option.none
        = CmdOutcome.exits c out →
      env.result ["git", "init", "--bare", cl] Option.none = CmdOutcome.exits 0 out5 →
      prepare_branch env dr cl co br = (Except.ok (), [refExEv dr br, initEv cl])) := by
  constructor
  · intro out out2 out3 out4 h1 h2 h3 h4
    unfold prepare_branch git_ref_exists git_clone git_checkout git_reset git command
    simp [optFlag, M.emit, M.bind, M.pur, h1, h2, h3, h4, refExEv, cloneEv, checkoutEv, resetEv]
  · intro c out out5 hc h1 h2
    unfold prepare_branch git_ref_exists git_init git command
    simp [optFlag, M.emit, M.bind, M.pur, h1, h2, hc, refExEv, initEv]

/-- Environment in which the branch-existence check fails and every other
command exits 0. -/
def envC5 : Env :=
  { result := fun args _ =>
      if args.getD 2 "" = "rev-parse" then CmdOutcome.exits 1 []
      else CmdOutcome.exits 0 []
    cwd := "/w"
    scriptDir := "/s"
    sysTempDir := "/t"
    freshName := "f" }

theorem c5_witness :
    prepare_branch envAllOk "/d" "/c" "/o" "b" =
      (Except.ok (), [refExEv "/d" "b", cloneEv "/d" "/c", checkoutEv "/c" "/o" "b",
        resetEv "/c" "b"]) ∧
    prepare_branch envC5 "/d" "/c" "/o" "b" = (Except.ok (), [refExEv "/d" "b", initEv "/c"]) :=
  ⟨(c5_prepare_branch_dispatch envAllOk "/d" "/c" "/o" "b").1 ["x"] ["x"] ["x"] ["x"]
      (by decide) (by decide) (by decide) (by decide),
    (c5_prepare_branch_dispatch envC5 "/d" "/c" "/o" "b").2 1 [] [] (by decide)
      (by decide) (by decide)⟩

/-- Evaluation of `git_name_rev` once the store's single-line answer is
known. -/
theorem git_name_rev_eval (env : Env) (repo rev w : String)
    (hres : env.result
        ["git", "--git-dir=" ++ repo, "name-rev", "--no-undefined", "--name-only", "--tags", rev]
        Option.none = CmdOutcome.exits 0 [w]) :
    git_name_rev env repo rev =
      (match rsplit1 '^' w.toList with
        | (_, Option.none) => Except.ok w
        | (bef, some rest) =>
          if rest = ['0'] then Except.ok (String.mk bef) else Except.error RunError.uncaught,
        [nameRevEv repo rev]) := by
  unfold git_name_rev git command
  rcases hsp : rsplit1 '^' w.data with ⟨bef, rest⟩
  cases rest with
  | none => simp [optFlag, M.emit, M.bind, M.pur, hres, nameRevEv, String.toList, hsp]
  | some r =>
    by_cases hr : r = ['0'] <;>
      simp [optFlag, M.emit, M.bind, M.pur, M.thr, hres, nameRevEv, String.toList, hsp, hr]

/-- `git_name_rev` depends on the environment only through the store's
answer to its one `name-rev` query. -/
theorem git_name_rev_congr (env env2 : Env) (repo rev : String)
    (h : env2.result
        ("git" :: (optFlag "git-dir" (some repo) ++ optFlag "work-tree" Option.none
          ++ ["name-rev", "--no-undefined", "--name-only", "--tags", rev])) Option.none
      = env.result
        ("git" :: (optFlag "git-dir" (some repo) ++ optFlag "work-tree" Option.none
          ++ ["name-rev", "--no-undefined", "--name-only", "--tags", rev])) Option.none) :
    git_name_rev env2 repo rev = git_name_rev env repo rev := by
  unfold git_name_rev git command
  rw [h]

/-- C6.  For every revision with an existing reachable tag, resolution
returns the tag's version label: when the Revision Store's `name-rev` answer
is the label itself (no `'^'` marker) or the label with the known `'^0'`
marker appended, `git_name_rev` returns exactly the label; and the result
depends only on the store's answer for that revision, so repeated calls on
the same revision state return the same label. -/
theorem c6_resolve_reachable_tag (env env2 : Env) (repo rev V w : String)
    (hres : env.result
        ["git", "--git-dir=" ++ repo, "name-rev", "--no-undefined", "--name-only", "--tags", rev]
        Option.none = CmdOutcome.exits 0 [w])
    (hw : (w = V ∧ ∀ a ∈ V.toList, (a == '^') = false) ∨ w.toList = V.toList ++ ['^', '0']) :
    git_name_rev env repo rev = (Except.ok V, [nameRevEv repo rev]) ∧
    (env2.result
        ["git", "--git-dir=" ++ repo, "name-rev", "--no-undefined", "--name-only", "--tags", rev]
        Option.none = env.result
        ["git", "--git-dir=" ++ repo, "name-rev", "--no-undefined", "--name-only", "--tags", rev]
        Option.none →
      git_name_rev env2 repo rev = git_name_rev env repo rev) := by
  constructor
  · rcases hw with ⟨rfl, hV⟩ | hsuffix
    · rw [git_name_rev_eval env repo rev w hres, rsplit1_none '^' w.toList hV]
    · rw [git_name_rev_eval env repo rev w hres,
        show w.toList = V.toList ++ '^' :: ['0'] from hsuffix,
        rsplit1_last '^' V.toList ['0'] (by decide)]
      simp [mk_toList]
  · intro henv
    exact git_name_rev_congr env env2 repo rev henv

/-- C7.  Revision resolution fails with the command-failure error
(`UserError`, reported as a missing tag by `--no-undefined`) when `name-rev`
exits non-zero; it fails with the tag-format assertion (an uncaught
`AssertionError`) when the resolved name carries a `'^'`-suffix other than
`'^0'`; and in the `'^0'` case the suffix is stripped and the remainder
returned. -/
theorem c7_name_rev_failure_modes (env : Env) (repo rev : String) :
    (∀ c out, env.result
        ["git", "--git-dir=" ++ repo, "name-rev", "--no-undefined", "--name-only", "--tags", rev]
        Option.none = CmdOutcome.exits c out → c ≠ 0 →
      git_name_rev env repo rev =
        (Except.error (RunError.userError (failMsg c
          ["git", "--git-dir=" ++ repo, "name-rev", "--no-undefined", "--name-only", "--tags",
            rev])), [nameRevEv repo rev])) ∧
    (∀ (w : String) (v r : List Char), env.result
        ["git", "--git-dir=" ++ repo, "name-rev", "--no-undefined", "--name-only", "--tags", rev]
        Option.none = CmdOutcome.exits 0 [w] → w.toList = v ++ '^' :: r →
      (∀ a ∈ r, (a == '^') = false) → r ≠ ['0'] →
      git_name_rev env repo rev = (Except.error RunError.uncaught, [nameRevEv repo rev])) ∧
    (∀ (w : String) (v : List Char), env.result
        ["git", "--git-dir=" ++ repo, "name-rev", "--no-undefined", "--name-only", "--tags", rev]
        Option.none = CmdOutcome.exits 0 [w] → w.toList = v ++ ['^', '0'] →
      git_name_rev env repo rev = (Except.ok (String.mk v), [nameRevEv repo rev])) := by
  refine ⟨?_, ?_, ?_⟩
  · intro c out h1 hc
    unfold git_name_rev git command
    simp [optFlag, M.emit, M.bind, M.pur, M.thr, h1, hc, nameRevEv]
  · intro w v r h1 hsplit hr hr0
    rw [git_name_rev_eval env repo rev w h1, hsplit, rsplit1_last '^' v r hr]
    simp [hr0]
  · intro w v h1 hsplit
    rw [git_name_rev_eval env repo rev w h1,
      show w.toList = v ++ '^' :: ['0'] from hsplit, rsplit1_last '^' v ['0'] (by decide)]
    simp

/-- Environment whose `name-rev` answer carries the `'^0'` marker. -/
def envC6 : Env :=
  { result := fun _ _ => CmdOutcome.exits 0 ["v1.0^0"]
    cwd := "/w"
    scriptDir := "/s"
    sysTempDir := "/t"
    freshName := "f" }

theorem c6_witness :
    git_name_rev envC6 "/r" "HEAD" = (Except.ok "v1.0", [nameRevEv "/r" "HEAD"]) ∧
    git_name_rev envAllOk "/r" "HEAD" = (Except.ok "x", [nameRevEv "/r" "HEAD"]) := by
  constructor
  · exact (c6_resolve_reachable_tag envC6 envC6 "/r" "HEAD" "v1.0" "v1.0^0" (by decide)
      (Or.inr (by decide))).1
  · exact (c6_resolve_reachable_tag envAllOk envAllOk "/r" "HEAD" "x" "x" (by decide)
      (Or.inl ⟨rfl, by decide⟩)).1

/-- Environment whose `name-rev` command fails (no reachable tag). -/
def envC7 : Env :=
  { result := fun _ _ => CmdOutcome.exits 128 []
    cwd := "/w"
    scriptDir := "/s"
    sysTempDir := "/t"
    freshName := "f" }

/-- Environment whose `name-rev` answer carries a marker other than `'^0'`. -/
def envC7b : Env :=
  { result := fun _ _ => CmdOutcome.exits 0 ["v1.0^2"]
    cwd := "/w"
    scriptDir := "/s"
    sysTempDir := "/t"
    freshName := "f" }

theorem c7_witness :
    git_name_rev envC7 "/r" "HEAD" =
      (Except.error (RunError.userError (failMsg 128
        ["git", "--git-dir=/r", "name-rev", "--no-undefined", "--name-only", "--tags",
          "HEAD"])), [nameRevEv "/r" "HEAD"]) ∧
    git_name_rev envC7b "/r" "HEAD" = (Except.error RunError.uncaught, [nameRevEv "/r" "HEAD"]) ∧
    git_name_rev envC6 "/r" "HEAD" = (Except.ok (String.mk ['v', '1', '.', '0']),
      [nameRevEv "/r" "HEAD"]) := by
  refine ⟨?_, ?_, ?_⟩
  · exact (c7_name_rev_failure_modes envC7 "/r" "HEAD").1 128 [] (by decide) (by decide)
  · exact (c7_name_rev_failure_modes envC7b "/r" "HEAD").2.1 "v1.0^2" ['v', '1', '.', '0'] ['2']
      (by decide) (by decide) (by decide) (by decide)
  · exact (c7_name_rev_failure_modes envC6 "/r" "HEAD").2.2 "v1.0^0" ['v', '1', '.', '0']
      (by decide) (by decide)

/-! ## Workspace lifecycle -/

/-- Events that are not temporary-directory operations. -/
def NoTmpEv : Ev → Prop
  | Ev.mkdtemp _ => False
  | Ev.rmtree _ => False
  | Ev.makedirs _ => False
  | _ => True

theorem notmp_cmd (a : List String) (c : Option String) (b : Bool) :
    NoTmpEv (Ev.cmd a c b) := trivial

theorem notmp_mkdir (d : String) : NoTmpEv (Ev.mkdir d) := trivial

theorem notmp_mainBody (env : Env) (args : Args) (pr dr td : String) :
    TraceAll NoTmpEv (mainBody env args pr dr td) := by
  unfold mainBody
  exact traceAll_bind (traceAll_releasePhase2 env args pr td notmp_mkdir
      (fun w x => notmp_cmd _ _ _) (fun rest d => notmp_cmd _ _ _)
      (fun t x => notmp_cmd _ _ _) (fun refs => notmp_cmd _ _ _)) fun revisions =>
    traceAll_bind (traceAll_emit (notmp_mkdir _)) fun _ =>
    traceAll_bind (traceAll_prepare_branch2 env _ _ _ _ (fun f => notmp_cmd _ _ _)
      (fun s d => notmp_cmd _ _ _) (fun w x => notmp_cmd _ _ _)
      (fun x => notmp_cmd _ _ _) (fun r => notmp_cmd _ _ _)) fun _ =>
    traceAll_bind (traceAll_git_clone2 env _ _ (notmp_cmd _ _ _)) fun _ =>
    traceAll_bind (traceAll_build_loop2 env _ _ _ _ (fun x => notmp_cmd _ _ _)
      notmp_mkdir (fun w x => notmp_cmd _ _ _) (fun rest d => notmp_cmd _ _ _)) fun versions =>
    traceAll_bind (traceAll_git_commit_all2 env _ _ _ (notmp_cmd _ _ _) (notmp_cmd _ _ _))
      fun _ =>
    traceAll_bind (traceAll_git_push2 env _ _ _ (notmp_cmd _ _ _)) fun _ =>
    traceAll_git_push2 env _ _ _ (notmp_cmd _ _ _)

/-- C8.  Workspace directories are deleted on every exit path when the debug
flag is false: whatever the command outcomes (success, failure or
interruption), a temporary directory allocated by the run is the system
temporary directory and its deletion is also in the trace.  With the debug
flag true, the directory is created under the retained base directory `tmp`
(created if absent with `makedirs`) with the generated collision-free name,
and nothing is ever deleted. -/
theorem c8_workspace_lifecycle (env : Env) (argv : List String) (args : Args)
    (hparse : parse_args argv = Except.ok args) :
    (args.debug = false →
      ∀ d, Ev.mkdtemp d ∈ (runScript env argv).2.2 →
        d = env.sysTempDir ∧ Ev.rmtree d ∈ (runScript env argv).2.2) ∧
    (args.debug = true →
      (∀ d, Ev.mkdtemp d ∈ (runScript env argv).2.2 →
        d = "tmp/" ++ env.freshName ∧ Ev.makedirs "tmp" ∈ (runScript env argv).2.2) ∧
      (∀ d, Ev.rmtree d ∉ (runScript env argv).2.2)) := by
  have hn1 : TraceAll NoTmpEv (git_get_repo env env.cwd) :=
    traceAll_git_get_repo2 env _ (notmp_cmd _ _ _)
  have hn2 : TraceAll NoTmpEv (git_get_repo env env.scriptDir) :=
    traceAll_git_get_repo2 env _ (notmp_cmd _ _ _)
  have htr : (runScript env argv).2.2 = (mainRun env argv).2 := runScript_tr env argv
  rw [htr]
  unfold mainRun
  rw [show M.liftE (parse_args argv) = (Except.ok args, []) from by rw [hparse]; rfl]
  simp only [M.bind_ok, List.nil_append]
  rcases h1 : git_get_repo env env.cwd with ⟨r1, t1⟩
  rw [h1] at hn1
  cases r1 with
  | error er =>
    rw [M.bind_err]
    constructor
    · intro _ d hd
      exact absurd (hn1 _ hd) (by simp [NoTmpEv])
    · intro _
      refine ⟨fun d hd => absurd (hn1 _ hd) (by simp [NoTmpEv]), fun d hd => ?_⟩
      exact absurd (hn1 _ hd) (by simp [NoTmpEv])
  | ok pr =>
    simp only [M.bind_ok]
    rcases h2 : git_get_repo env env.scriptDir with ⟨r2, t2⟩
    rw [h2] at hn2
    cases r2 with
    | error er =>
      rw [M.bind_err]
      constructor
      · intro _ d hd
        rcases List.mem_append.1 hd with hd | hd
        · exact absurd (hn1 _ hd) (by simp [NoTmpEv])
        · exact absurd (hn2 _ hd) (by simp [NoTmpEv])
      · intro _
        constructor
        · intro d hd
          rcases List.mem_append.1 hd with hd | hd
          · exact absurd (hn1 _ hd) (by simp [NoTmpEv])
          · exact absurd (hn2 _ hd) (by simp [NoTmpEv])
        · intro d hd
          rcases List.mem_append.1 hd with hd | hd
          · exact absurd (hn1 _ hd) (by simp [NoTmpEv])
          · exact absurd (hn2 _ hd) (by simp [NoTmpEv])
    | ok dr =>
      simp only [M.bind_ok]
      have hbody := notmp_mainBody env args pr dr
      constructor
      · -- debug = false: the system temporary directory is removed
        intro hdbg d hd
        rw [hdbg] at hd ⊢
        unfold make_temp_dir at hd ⊢
        simp only [Bool.false_eq_true, reduceIte, M.emit, M.bind_ok, M.fin] at hd ⊢
        rcases List.mem_append.1 hd with hd | hd
        · exact absurd (hn1 _ hd) (by simp [NoTmpEv])
        rcases List.mem_append.1 hd with hd | hd
        · exact absurd (hn2 _ hd) (by simp [NoTmpEv])
        rcases List.mem_append.1 hd with hd | hd
        · rcases List.mem_singleton.1 hd with h
          refine ⟨(Ev.mkdtemp.inj h).symm ▸ rfl, ?_⟩
          · refine List.mem_append_right _ (List.mem_append_right _ ?_)
            refine List.mem_append_right _ ?_
            injection h with h3
            rw [h3]
            simp
        rcases List.mem_append.1 hd with hd | hd
        · exact absurd (hbody env.sysTempDir _ hd) (by simp [NoTmpEv])
        · simp at hd
      · -- debug = true: retained under `tmp`, never removed
        intro hdbg
        rw [hdbg]
        unfold make_temp_dir
        simp only [reduceIte, M.emit, M.bind_ok]
        constructor
        · intro d hd
          rcases List.mem_append.1 hd with hd | hd
          · exact absurd (hn1 _ hd) (by simp [NoTmpEv])
          rcases List.mem_append.1 hd with hd | hd
          · exact absurd (hn2 _ hd) (by simp [NoTmpEv])
          rcases List.mem_append.1 hd with hd | hd
          · simp at hd
          rcases List.mem_append.1 hd with hd | hd
          · rcases List.mem_singleton.1 hd with h
            injection h with h3
            refine ⟨h3, ?_⟩
            refine List.mem_append_right _ (List.mem_append_right _ ?_)
            exact List.mem_append_left _ (by simp)
          · exact absurd (hbody _ _ hd) (by simp [NoTmpEv])
        · intro d hd
          rcases List.mem_append.1 hd with hd | hd
          · exact absurd (hn1 _ hd) (by simp [NoTmpEv])
          rcases List.mem_append.1 hd with hd | hd
          · exact absurd (hn2 _ hd) (by simp [NoTmpEv])
          rcases List.mem_append.1 hd with hd | hd
          · simp at hd
          rcases List.mem_append.1 hd with hd | hd
          · simp at hd
          · exact absurd (hbody _ _ hd) (by simp [NoTmpEv])

theorem c8_witness :
    Ev.rmtree "/t" ∈ (runScript envAllOk []).2.2 ∧
    Ev.rmtree "/t" ∉ (runScript envAllOk ["--debug"]).2.2 := by
  constructor
  · exact ((c8_workspace_lifecycle envAllOk []
      { revisions := ["HEAD"], release := Option.none, branch := "gh-pages", debug := false }
      rfl).1 rfl "/t" (by decide)).2
  · exact ((c8_workspace_lifecycle envAllOk ["--debug"]
      { revisions := ["HEAD"], release := Option.none, branch := "gh-pages", debug := true }
      rfl).2 rfl).2 "/t"

/-! ## Claim C9: the no-revisions check -/

theorem parseLoop_err : ∀ (n : Nat) (l pos : List String) (rel : Option String) (br : String)
    (dbg : Bool) (e : RunError), l.length ≤ n →
    parseLoop l pos rel br dbg = Except.error e → e = RunError.usageError := by
  intro n
  induction n with
  | zero =>
    intro l pos rel br dbg e hlen h
    rcases l with _ | ⟨a, rest⟩
    · rw [show parseLoop [] pos rel br dbg = Except.ok (pos, rel, br, dbg) from rfl] at h
      exact Except.noConfusion h
    · simp at hlen
  | succ n ih =>
    intro l pos rel br dbg e hlen h
    rcases l with _ | ⟨a, rest⟩
    · rw [show parseLoop [] pos rel br dbg = Except.ok (pos, rel, br, dbg) from rfl] at h
      exact Except.noConfusion h
    · simp only [List.length_cons, Nat.succ_le_succ_iff] at hlen
      rcases rest with _ | ⟨v, rest2⟩
      · simp only [parseLoop] at h
        split_ifs at h
        all_goals exact (Except.error.inj h).symm
      · simp only [List.length_cons] at hlen
        simp only [parseLoop] at h
        split_ifs at h with h1 h2 h3 h4 h5 h6
        · exact ih (v :: rest2) pos rel br true e (by simp; omega) h
        · exact ih rest2 pos (some v) br dbg e (by omega) h
        · exact ih rest2 pos rel v dbg e (by omega) h
        · exact ih (v :: rest2) pos (some (String.mk (a.toList.drop 10))) br dbg e
            (by simp; omega) h
        · exact ih (v :: rest2) pos rel (String.mk (a.toList.drop 9)) dbg e (by simp; omega) h
        · simp only [Except.error.injEq] at h
          exact h.symm
        · exact ih (v :: rest2) (pos ++ [a]) rel br dbg e (by simp; omega) h

/-- C9 counterexample.  Invoked with no revision references and no release
label, the command does not fail with a user-input error: argparse's
`nargs='*'` default makes the revisions list `['HEAD']`, the run proceeds to
version-control operations (the first trace event is the `rev-parse` of the
working directory) and, with all commands succeeding, deploys `HEAD` and
exits 0. -/
theorem c9_counterexample :
    parse_args [] = Except.ok
      { revisions := ["HEAD"], release := Option.none, branch := "gh-pages", debug := false } ∧
    (runScript envAllOk []).1 = 0 ∧
    (runScript envAllOk []).2.2.head? = some (getRepoEv "/w") := by
  refine ⟨rfl, ?_, ?_⟩ <;> decide

theorem bind_tr_nilf {α β : Type} (x : M α) (f : α → M β) (h : ∀ a, (f a).2 = []) :
    (M.bind x f).2 = x.2 := by
  rcases x with ⟨r, t⟩
  cases r with
  | ok a =>
    rw [M.bind_ok, h a, List.append_nil]
  | error e => rw [M.bind_err]

theorem git_get_repo_tr (env : Env) (dir : String) :
    (git_get_repo env dir).2 = [getRepoEv dir] := by
  unfold git_get_repo
  rw [bind_tr_nilf]
  · rw [show git env ["rev-parse", "--git-dir"] Option.none Option.none true false (some dir) =
      command env ("git" :: (optFlag "git-dir" Option.none ++ optFlag "work-tree" Option.none
        ++ ["rev-parse", "--git-dir"])) (some dir) true false from rfl, command_tr]
    simp [optFlag, getRepoEv]
  · intro a
    split <;> simp [M.pur, M.thr]

/-- C9 amended.  With no revision references and no release label the run
does not fail: the parsed revisions list is never empty (the default is
`['HEAD']`), `parse_args` can never return the no-revisions `UserError` (the
check at lines 135-136 of the source is unreachable), and a run on an empty
command line begins with the version-control lookup of the project
repository. -/
theorem c9_no_revisions_check_unreachable (env : Env) (argv : List String) :
    (∀ args, parse_args argv = Except.ok args → args.revisions ≠ []) ∧
    parse_args argv ≠ Except.error (RunError.userError
      "At least one revision to deploy or --release must be specified.") ∧
    (runScript env []).2.2.head? = some (getRepoEv env.cwd) := by
  refine ⟨?_, ?_, ?_⟩
  · intro args h
    unfold parse_args at h
    rcases hp : parseLoop argv [] Option.none "gh-pages" false with e | ⟨pos, rel, br, dbg⟩
    · rw [hp] at h
      simp at h
    · rw [hp] at h
      rcases pos with _ | ⟨p, ps⟩ <;> simp_all <;> simp [← h]
  · intro h
    unfold parse_args at h
    rcases hp : parseLoop argv [] Option.none "gh-pages" false with e | ⟨pos, rel, br, dbg⟩
    · rw [hp] at h
      simp only [Except.error.injEq] at h
      have := parseLoop_err argv.length argv [] Option.none "gh-pages" false e le_rfl hp
      rw [this] at h
      exact RunError.noConfusion h
    · rw [hp] at h
      rcases pos with _ | ⟨p, ps⟩ <;> simp_all
  · rw [runScript_tr]
    unfold mainRun
    rw [show M.liftE (parse_args []) = (Except.ok
      { revisions := ["HEAD"], release := Option.none, branch := "gh-pages", debug := false },
      ([] : List Ev)) from rfl]
    simp only [M.bind_ok, List.nil_append]
    rcases h1 : git_get_repo env env.cwd with ⟨r1, t1⟩
    have ht1 : t1 = [getRepoEv env.cwd] := by
      have := git_get_repo_tr env env.cwd
      rw [h1] at this
      exact this
    cases r1 with
    | error er =>
      rw [M.bind_err, ht1]
      rfl
    | ok pr =>
      rw [M.bind_ok, ht1]
      rfl

theorem c9_witness :
    ({ revisions := ["HEAD"], release := Option.none, branch := "gh-pages",
        debug := false } : Args).revisions ≠ [] ∧
    (runScript envAllOk []).2.2.head? = some (getRepoEv "/w") :=
  ⟨(c9_no_revisions_check_unreachable envAllOk []).1 _ rfl,
    (c9_no_revisions_check_unreachable envAllOk []).2.2⟩

/-! ## Success equations and trace membership -/

theorem M.mem_bind_left {α β : Type} {x : M α} {f : α → M β} {e : Ev} (h : e ∈ x.2) :
    e ∈ (M.bind x f).2 := by
  rcases x with ⟨r, t⟩
  cases r with
  | ok a =>
    rw [M.bind_ok]
    exact List.mem_append_left _ h
  | error er =>
    rw [M.bind_err]
    exact h

theorem M.mem_bind_right {α β : Type} {x : M α} {f : α → M β} {a : α} {e : Ev}
    (hx : x.1 = Except.ok a) (h : e ∈ (f a).2) : e ∈ (M.bind x f).2 := by
  rcases x with ⟨r, t⟩
  simp only at hx
  subst hx
  rw [M.bind_ok]
  exact List.mem_append_right _ h

theorem command_okEq (env : Env) (args : List String) (cwd : Option String) (output : Bool)
    (out : List String) (h : env.result args cwd = CmdOutcome.exits 0 out) :
    command env args cwd output false =
      (Except.ok (if output then CommandRet.output out else CommandRet.noOutput),
        [Ev.cmd args cwd false]) := by
  unfold command
  rw [show M.emit (Ev.cmd args cwd false) = (Except.ok (), [Ev.cmd args cwd false]) from rfl,
    M.bind_ok, h]
  simp [M.pur]

theorem git_checkout_okEq (env : Env) (r w x : String) (out : List String)
    (h : env.result ["git", "--git-dir=" ++ r, "--work-tree=" ++ w, "checkout", x, "."]
      Option.none = CmdOutcome.exits 0 out) :
    git_checkout env r w x = (Except.ok (), [checkoutEv r w x]) := by
  unfold git_checkout git
  rw [show ("git" :: (optFlag "git-dir" (some r) ++ optFlag "work-tree" (some w)
    ++ ["checkout", x, "."])) = ["git", "--git-dir=" ++ r, "--work-tree=" ++ w, "checkout", x,
    "."] from by simp [optFlag], command_okEq env _ _ _ out h, M.bind_ok]
  simp [M.pur, checkoutEv]

theorem maven_okEq (env : Env) (dir goal : String) (properties : List (String × String))
    (out : List String)
    (h : env.result ("mvn" :: (properties.map fun kv => "-D" ++ kv.1 ++ "=" ++ kv.2) ++ [goal])
      (some dir) = CmdOutcome.exits 0 out) :
    maven env dir goal properties = (Except.ok (),
      [Ev.cmd ("mvn" :: (properties.map fun kv => "-D" ++ kv.1 ++ "=" ++ kv.2) ++ [goal])
        (some dir) false]) := by
  unfold maven
  rw [command_okEq env _ _ _ out h, M.bind_ok]
  simp [M.pur]

theorem git_tag_okEq (env : Env) (r t x : String) (out : List String)
    (h : env.result ["git", "--git-dir=" ++ r, "tag", t, x] Option.none
      = CmdOutcome.exits 0 out) :
    git_tag env r t x = (Except.ok (), [tagEv r t x]) := by
  unfold git_tag git
  rw [show ("git" :: (optFlag "git-dir" (some r) ++ optFlag "work-tree" Option.none
    ++ ["tag", t, x])) = ["git", "--git-dir=" ++ r, "tag", t, x] from by simp [optFlag],
    command_okEq env _ _ _ out h, M.bind_ok]
  simp [M.pur, tagEv]

theorem git_push_okEq (env : Env) (src dst : String) (refs : List Ref) (out : List String)
    (h : env.result ("git" :: ("--git-dir=" ++ src) :: "push" :: dst :: refs.map refs_fn)
      Option.none = CmdOutcome.exits 0 out) :
    git_push env src dst refs = (Except.ok (), [pushEv src dst (refs.map refs_fn)]) := by
  unfold git_push git
  rw [show ("git" :: (optFlag "git-dir" (some src) ++ optFlag "work-tree" Option.none
    ++ ("push" :: dst :: refs.map refs_fn)))
    = ("git" :: ("--git-dir=" ++ src) :: "push" :: dst :: refs.map refs_fn) from by
      simp [optFlag], command_okEq env _ _ _ out h, M.bind_ok]
  simp [M.pur, pushEv]

theorem git_get_repo_okEq (env : Env) (dir l : String)
    (h : env.result ["git", "rev-parse", "--git-dir"] (some dir) = CmdOutcome.exits 0 [l]) :
    git_get_repo env dir = (Except.ok (pathJoin dir l), [getRepoEv dir]) := by
  unfold git_get_repo git
  rw [show ("git" :: (optFlag "git-dir" Option.none ++ optFlag "work-tree" Option.none
    ++ ["rev-parse", "--git-dir"])) = ["git", "rev-parse", "--git-dir"] from by simp [optFlag],
    command_okEq env _ _ _ [l] h, M.bind_ok]
  simp [M.pur, getRepoEv]

theorem git_checkout_tr (env : Env) (r w x : String) :
    (git_checkout env r w x).2 = [checkoutEv r w x] := by
  unfold git_checkout git
  rw [bind_tr_nilf _ _ fun a => rfl, command_tr]
  simp [optFlag, checkoutEv]

theorem notag_mkdir (d : String) : isGitTagEv (Ev.mkdir d) = false := by
  simp [isGitTagEv, argAt]

theorem notag_checkout (r w x : String) : isGitTagEv (checkoutEv r w x) = false := by
  simp [isGitTagEv, argAt, checkoutEv, beq_append_lit w ws_tag]

theorem notag_mvn (rest : List String) (c : Option String) :
    isGitTagEv (Ev.cmd ("mvn" :: rest) c false) = false := by
  simp [isGitTagEv, argAt]

/-- Within the release phase, a `git tag` event can only appear after the
`mvn package` of the release checkout succeeded. -/
theorem releasePhase_tag_needs_package (env : Env) (args : Args) (pr td : String) :
    ∀ e ∈ (releasePhase env args pr td).2, isGitTagEv e = true →
      ∃ out, Ev.cmd ["mvn", "package"] (some (pathJoin td "release_checkout")) false
          ∈ (releasePhase env args pr td).2 ∧
        env.result ["mvn", "package"] (some (pathJoin td "release_checkout"))
          = CmdOutcome.exits 0 out := by
  intro e he htag
  unfold releasePhase at he ⊢
  cases hrel : args.release with
  | none =>
    rw [hrel] at he
    simp [M.pur] at he
  | some rel =>
    rw [hrel] at he
    simp only [M.emit, M.bind_ok] at he ⊢
    rcases List.mem_append.1 he with he1 | he
    · rw [List.mem_singleton.1 he1] at htag
      rw [notag_mkdir] at htag
      exact Bool.noConfusion htag
    rcases hco : git_checkout env pr (pathJoin td "release_checkout") "HEAD" with ⟨rc, tc⟩
    have htc : tc = [checkoutEv pr (pathJoin td "release_checkout") "HEAD"] := by
      have := git_checkout_tr env pr (pathJoin td "release_checkout") "HEAD"
      rw [hco] at this
      exact this
    rw [hco] at he
    cases rc with
    | error er =>
      rw [M.bind_err] at he
      rw [htc] at he
      rw [List.mem_singleton.1 he] at htag
      rw [notag_checkout] at htag
      exact Bool.noConfusion htag
    | ok u =>
      simp only [M.bind_ok] at he ⊢
      rcases List.mem_append.1 he with he1 | he
      · rw [htc] at he1
        rw [List.mem_singleton.1 he1] at htag
        rw [notag_checkout] at htag
        exact Bool.noConfusion htag
      · cases hpk : env.result ["mvn", "package"] (some (pathJoin td "release_checkout")) with
        | exits c out =>
          by_cases hc : c = 0
          · subst hc
            refine ⟨out, ?_, rfl⟩
            refine List.mem_append_right _ (List.mem_append_right _ ?_)
            rw [show maven env (pathJoin td "release_checkout") "package" []
              = M.bind (command env ["mvn", "package"]
                (some (pathJoin td "release_checkout")) false false) fun _ => M.pur () from rfl,
              command_okEq env _ _ _ out hpk, M.bind_ok]
            exact List.mem_append_left _ (List.mem_singleton_self _)
          · exfalso
            rw [show maven env (pathJoin td "release_checkout") "package" []
              = M.bind (command env ["mvn", "package"]
                (some (pathJoin td "release_checkout")) false false) fun _ => M.pur () from rfl]
              at he
            unfold command at he
            rw [show M.emit (Ev.cmd ["mvn", "package"]
              (some (pathJoin td "release_checkout")) false) = (Except.ok (),
              [Ev.cmd ["mvn", "package"] (some (pathJoin td "release_checkout")) false])
              from rfl, M.bind_ok, hpk] at he
            simp only [Bool.false_eq_true, reduceIte, hc, M.thr] at he
            rw [M.bind_err] at he
            simp only [M.bind_err] at he
            rcases List.mem_append.1 he with he1 | he1
            · rw [List.mem_singleton.1 he1] at htag
              rw [notag_mvn] at htag
              exact Bool.noConfusion htag
            · simp at he1
        | interrupt =>
          exfalso
          rw [show maven env (pathJoin td "release_checkout") "package" []
            = M.bind (command env ["mvn", "package"]
              (some (pathJoin td "release_checkout")) false false) fun _ => M.pur () from rfl]
            at he
          unfold command at he
          rw [show M.emit (Ev.cmd ["mvn", "package"]
            (some (pathJoin td "release_checkout")) false) = (Except.ok (),
            [Ev.cmd ["mvn", "package"] (some (pathJoin td "release_checkout")) false]) from rfl,
            M.bind_ok, hpk] at he
          simp only [M.thr] at he
          rw [M.bind_err] at he
          simp only [M.bind_err] at he
          rcases List.mem_append.1 he with he1 | he1
          · rw [List.mem_singleton.1 he1] at htag
            rw [notag_mvn] at htag
            exact Bool.noConfusion htag
          · simp at he1

theorem notag_getRepo (d : String) : isGitTagEv (getRepoEv d) = false := by
  simp [isGitTagEv, argAt, getRepoEv]

theorem notag_nameRev (r x : String) : isGitTagEv (nameRevEv r x) = false := by
  simp [isGitTagEv, argAt, nameRevEv]

theorem notag_reset (r x : String) : isGitTagEv (resetEv r x) = false := by
  simp [isGitTagEv, argAt, resetEv]

theorem notag_clone (s d : String) : isGitTagEv (cloneEv s d) = false := by
  simp [isGitTagEv, argAt, cloneEv]

theorem notag_init (r : String) : isGitTagEv (initEv r) = false := by
  simp [isGitTagEv, argAt, initEv]

theorem notag_refEx (r f : String) : isGitTagEv (refExEv r f) = false := by
  simp [isGitTagEv, argAt, refExEv]

theorem notag_add (r w : String) : isGitTagEv (addEv r w) = false := by
  simp [isGitTagEv, argAt, addEv, beq_append_lit w ws_tag]

theorem notag_commit (r w m : String) : isGitTagEv (commitEv r w m) = false := by
  simp [isGitTagEv, argAt, commitEv, beq_append_lit w ws_tag]

theorem notag_pushEv (r d : String) (refs : List String) :
    isGitTagEv (pushEv r d refs) = false := by
  simp [isGitTagEv, argAt, pushEv]

theorem notag_mkdirEv (d : String) : isGitTagEv (Ev.mkdir d) = false := notag_mkdir d

theorem notag_makedirs (d : String) : isGitTagEv (Ev.makedirs d) = false := by
  simp [isGitTagEv, argAt]

theorem notag_mkdtemp (d : String) : isGitTagEv (Ev.mkdtemp d) = false := by
  simp [isGitTagEv, argAt]

theorem notag_rmtree (d : String) : isGitTagEv (Ev.rmtree d) = false := by
  simp [isGitTagEv, argAt]

/-- A `git tag` event in the main body implies the release `mvn package`
succeeded (tag commands are issued only in the release phase). -/
theorem mainBody_tag_needs_package (env : Env) (args : Args) (pr dr td : String) :
    ∀ e ∈ (mainBody env args pr dr td).2, isGitTagEv e = true →
      ∃ out, Ev.cmd ["mvn", "package"] (some (pathJoin td "release_checkout")) false
          ∈ (mainBody env args pr dr td).2 ∧
        env.result ["mvn", "package"] (some (pathJoin td "release_checkout"))
          = CmdOutcome.exits 0 out := by
  intro e he htag
  unfold mainBody at he ⊢
  rcases hR : releasePhase env args pr td with ⟨rR, tR⟩
  rw [hR] at he
  cases rR with
  | error er =>
    rw [M.bind_err] at he
    rcases releasePhase_tag_needs_package env args pr td e (by rw [hR]; exact he) htag with
      ⟨out, hmem, hpk⟩
    refine ⟨out, ?_, hpk⟩
    refine M.mem_bind_left ?_
    rw [hR] at hmem
    exact hmem
  | ok revisions =>
    simp only [M.bind_ok] at he
    rcases List.mem_append.1 he with he1 | he1
    · rcases releasePhase_tag_needs_package env args pr td e (by rw [hR]; exact he1) htag with
        ⟨out, hmem, hpk⟩
      refine ⟨out, ?_, hpk⟩
      refine M.mem_bind_left ?_
      rw [hR] at hmem
      exact hmem
    · -- the rest of the body never issues `git tag`, so this contradicts
      -- the revisions value being irrelevant to the shapes
      exfalso
      have : ∀ e2 ∈ (M.bind (M.emit (Ev.mkdir (pathJoin td "deploy_checkout"))) fun _ =>
          M.bind (prepare_branch env dr (pathJoin td "deploy_repo")
            (pathJoin td "deploy_checkout") args.branch) fun _ =>
          M.bind (git_clone env pr (pathJoin td "project_repo")) fun _ =>
          M.bind (build_loop env td (pathJoin td "project_repo")
            (pathJoin td "deploy_checkout") (enumerate 0 revisions)) fun versions =>
          M.bind (git_commit_all env (pathJoin td "deploy_repo")
            (pathJoin td "deploy_checkout") (commit_message versions)) fun _ =>
          M.bind (git_push env (pathJoin td "deploy_repo") dr
            [Ref.pair "HEAD" args.branch]) fun _ =>
          git_push env dr "origin" [Ref.str args.branch]).2, isGitTagEv e2 = false := by
        exact traceAll_bind (traceAll_emit (notag_mkdirEv _)) fun _ =>
          traceAll_bind (traceAll_prepare_branch2 env _ _ _ _ (notag_refEx dr) notag_clone
            (notag_checkout _) (notag_reset _) notag_init) fun _ =>
          traceAll_bind (traceAll_git_clone2 env _ _ (notag_clone _ _)) fun _ =>
          traceAll_bind (traceAll_build_loop2 env _ _ _ _ (notag_nameRev _) notag_mkdirEv
            (notag_checkout _) (fun rest d => notag_mvn rest (some d))) fun versions =>
          traceAll_bind (traceAll_git_commit_all2 env _ _ _ (notag_add _ _)
            (notag_commit _ _ _)) fun _ =>
          traceAll_bind (traceAll_git_push2 env _ _ _ (notag_pushEv _ _ _)) fun _ =>
          traceAll_git_push2 env _ _ _ (notag_pushEv _ _ _)
      have h2 := this e he1
      rw [htag] at h2
      exact Bool.noConfusion h2

/-- A `git tag` event anywhere in a run implies a successful release
`mvn package` in the same trace. -/
theorem mainRun_tag_needs_package (env : Env) (argv : List String) :
    ∀ e ∈ (mainRun env argv).2, isGitTagEv e = true →
      ∃ d out, Ev.cmd ["mvn", "package"] (some d) false ∈ (mainRun env argv).2 ∧
        env.result ["mvn", "package"] (some d) = CmdOutcome.exits 0 out := by
  intro e he htag
  unfold mainRun at he ⊢
  cases hA : parse_args argv with
  | error er =>
    rw [show M.liftE (parse_args argv) = (Except.error er, []) from by rw [hA]; rfl,
      M.bind_err] at he
    simp at he
  | ok args =>
    rw [show M.liftE (parse_args argv) = (Except.ok args, []) from by rw [hA]; rfl] at he
    rw [show (M.liftE (Except.ok args) : M Args) = (Except.ok args, []) from rfl]
    simp only [M.bind_ok, List.nil_append] at he ⊢
    have nt1 : TraceAll (fun x => isGitTagEv x = false) (git_get_repo env env.cwd) :=
      traceAll_git_get_repo2 env _ (notag_getRepo _)
    have nt2 : TraceAll (fun x => isGitTagEv x = false) (git_get_repo env env.scriptDir) :=
      traceAll_git_get_repo2 env _ (notag_getRepo _)
    rcases h1 : git_get_repo env env.cwd with ⟨r1, t1⟩
    rw [h1] at he nt1
    cases r1 with
    | error er =>
      rw [M.bind_err] at he
      have h3 := nt1 _ he
      simp only [htag] at h3
      exact Bool.noConfusion h3
    | ok pr =>
      simp only [M.bind_ok] at he ⊢
      rcases List.mem_append.1 he with he1 | he
      · have h3 := nt1 _ he1
        simp only [htag] at h3
        exact Bool.noConfusion h3
      rcases h2 : git_get_repo env env.scriptDir with ⟨r2, t2⟩
      rw [h2] at he nt2
      cases r2 with
      | error er =>
        rw [M.bind_err] at he
        have h3 := nt2 _ he
        simp only [htag] at h3
        exact Bool.noConfusion h3
      | ok dr =>
        simp only [M.bind_ok] at he ⊢
        rcases List.mem_append.1 he with he1 | he
        · have h3 := nt2 _ he1
          simp only [htag] at h3
          exact Bool.noConfusion h3
        · unfold make_temp_dir at he ⊢
          cases hdbg : args.debug with
          | true =>
            rw [hdbg] at he
            simp only [reduceIte, M.emit, M.bind_ok] at he ⊢
            rcases List.mem_append.1 he with he1 | he
            · rw [List.mem_singleton.1 he1] at htag
              rw [notag_makedirs] at htag
              exact Bool.noConfusion htag
            rcases List.mem_append.1 he with he1 | he
            · rw [List.mem_singleton.1 he1] at htag
              rw [notag_mkdtemp] at htag
              exact Bool.noConfusion htag
            · rcases mainBody_tag_needs_package env args pr dr ("tmp/" ++ env.freshName)
                e he htag with ⟨out, hmem, hpk⟩
              refine ⟨pathJoin ("tmp/" ++ env.freshName) "release_checkout", out, ?_, hpk⟩
              refine List.mem_append_right _ (List.mem_append_right _ ?_)
              exact List.mem_append_right _ (List.mem_append_right _ hmem)
          | false =>
            rw [hdbg] at he
            simp only [Bool.false_eq_true, reduceIte, M.emit, M.bind_ok, M.fin] at he ⊢
            rcases List.mem_append.1 he with he1 | he
            · rw [List.mem_singleton.1 he1] at htag
              rw [notag_mkdtemp] at htag
              exact Bool.noConfusion htag
            rcases List.mem_append.1 he with he1 | he
            · rcases mainBody_tag_needs_package env args pr dr env.sysTempDir
                e he1 htag with ⟨out, hmem, hpk⟩
              refine ⟨pathJoin env.sysTempDir "release_checkout", out, ?_, hpk⟩
              refine List.mem_append_right _ (List.mem_append_right _ ?_)
              exact List.mem_append_right _ (List.mem_append_left _ hmem)
            · rw [List.mem_singleton.1 he] at htag
              rw [notag_rmtree] at htag
              exact Bool.noConfusion htag

theorem notags_getRepo (d : String) :
    isGitTagEv (getRepoEv d) = false ∧ isTagPushEv (getRepoEv d) = false :=
  ⟨notag_getRepo d, by simp [isTagPushEv, isGitPushEv, argAt, getRepoEv]⟩

theorem notags_checkout (r w x : String) :
    isGitTagEv (checkoutEv r w x) = false ∧ isTagPushEv (checkoutEv r w x) = false :=
  ⟨notag_checkout r w x,
    by simp [isTagPushEv, isGitPushEv, argAt, checkoutEv, beq_append_lit w ws_push]⟩

theorem notags_mvn (rest : List String) (c : Option String) :
    isGitTagEv (Ev.cmd ("mvn" :: rest) c false) = false ∧
      isTagPushEv (Ev.cmd ("mvn" :: rest) c false) = false :=
  ⟨notag_mvn rest c, by simp [isTagPushEv, isGitPushEv, argAt]⟩

theorem notags_mkdir (d : String) :
    isGitTagEv (Ev.mkdir d) = false ∧ isTagPushEv (Ev.mkdir d) = false :=
  ⟨notag_mkdir d, by simp [isTagPushEv, isGitPushEv, argAt]⟩

theorem notags_makedirs (d : String) :
    isGitTagEv (Ev.makedirs d) = false ∧ isTagPushEv (Ev.makedirs d) = false :=
  ⟨notag_makedirs d, by simp [isTagPushEv, isGitPushEv, argAt]⟩

theorem notags_mkdtemp (d : String) :
    isGitTagEv (Ev.mkdtemp d) = false ∧ isTagPushEv (Ev.mkdtemp d) = false :=
  ⟨notag_mkdtemp d, by simp [isTagPushEv, isGitPushEv, argAt]⟩

theorem notags_rmtree (d : String) :
    isGitTagEv (Ev.rmtree d) = false ∧ isTagPushEv (Ev.rmtree d) = false :=
  ⟨notag_rmtree d, by simp [isTagPushEv, isGitPushEv, argAt]⟩

/-- With the release label set and every `mvn package` failing, the release
phase aborts and its trace holds neither a `git tag` nor a tag push. -/
theorem releasePhase_pkgfail (env : Env) (args : Args) (pr td rel : String)
    (hrel : args.release = some rel)
    (hf : ∀ d c out, env.result ["mvn", "package"] (some d) = CmdOutcome.exits c out → c ≠ 0) :
    (∃ er, (releasePhase env args pr td).1 = Except.error er) ∧
    ∀ e ∈ (releasePhase env args pr td).2,
      isGitTagEv e = false ∧ isTagPushEv e = false := by
  unfold releasePhase
  rw [hrel]
  rcases hco : git_checkout env pr (pathJoin td "release_checkout") "HEAD" with ⟨rc, tc⟩
  have htc : tc = [checkoutEv pr (pathJoin td "release_checkout") "HEAD"] := by
    have := git_checkout_tr env pr (pathJoin td "release_checkout") "HEAD"
    rw [hco] at this
    exact this
  simp only [M.emit, M.bind_ok, hco]
  cases rc with
  | error er =>
    rw [M.bind_err]
    constructor
    · exact ⟨er, rfl⟩
    · intro e hee
      rcases List.mem_append.1 hee with he1 | he1
      · rw [List.mem_singleton.1 he1]
        exact notags_mkdir _
      · rw [htc] at he1
        rw [List.mem_singleton.1 he1]
        exact notags_checkout _ _ _
  | ok u =>
    simp only [M.bind_ok]
    rw [show maven env (pathJoin td "release_checkout") "package" []
      = M.bind (command env ["mvn", "package"]
        (some (pathJoin td "release_checkout")) false false) fun _ => M.pur () from rfl]
    unfold command
    rw [show M.emit (Ev.cmd ["mvn", "package"]
      (some (pathJoin td "release_checkout")) false) = (Except.ok (),
      [Ev.cmd ["mvn", "package"] (some (pathJoin td "release_checkout")) false]) from rfl,
      M.bind_ok]
    cases hpk : env.result ["mvn", "package"] (some (pathJoin td "release_checkout")) with
    | exits c out =>
      have hc := hf _ _ _ hpk
      simp only [Bool.false_eq_true, reduceIte, hc, M.thr, M.bind_err]
      constructor
      · exact ⟨_, rfl⟩
      · intro e hee
        rcases List.mem_append.1 hee with he1 | he1
        · rw [List.mem_singleton.1 he1]
          exact notags_mkdir _
        rcases List.mem_append.1 he1 with he2 | he2
        · rw [htc] at he2
          rw [List.mem_singleton.1 he2]
          exact notags_checkout _ _ _
        · rcases List.mem_append.1 he2 with he3 | he3
          · rw [List.mem_singleton.1 he3]
            exact notags_mvn _ _
          · simp at he3
    | interrupt =>
      simp only [M.thr, M.bind_err]
      constructor
      · exact ⟨_, rfl⟩
      · intro e hee
        rcases List.mem_append.1 hee with he1 | he1
        · rw [List.mem_singleton.1 he1]
          exact notags_mkdir _
        rcases List.mem_append.1 he1 with he2 | he2
        · rw [htc] at he2
          rw [List.mem_singleton.1 he2]
          exact notags_checkout _ _ _
        · rcases List.mem_append.1 he2 with he3 | he3
          · rw [List.mem_singleton.1 he3]
            exact notags_mvn _ _
          · simp at he3

/-- With the release label set and every `mvn package` failing, the whole
run's trace holds neither a `git tag` nor a tag push: the run aborts inside
the release phase before the tag is created. -/
theorem mainRun_pkgfail_no_tag (env : Env) (argv : List String) (args : Args) (rel : String)
    (hparse : parse_args argv = Except.ok args) (hrel : args.release = some rel)
    (hf : ∀ d c out, env.result ["mvn", "package"] (some d) = CmdOutcome.exits c out → c ≠ 0) :
    ∀ e ∈ (mainRun env argv).2, isGitTagEv e = false ∧ isTagPushEv e = false := by
  have hbody : ∀ pr dr td, ∀ e ∈ (mainBody env args pr dr td).2,
      isGitTagEv e = false ∧ isTagPushEv e = false := by
    intro pr dr td e he
    unfold mainBody at he
    rcases hR : releasePhase env args pr td with ⟨rR, tR⟩
    obtain ⟨⟨er, her⟩, hall⟩ := releasePhase_pkgfail env args pr td rel hrel hf
    rw [hR] at he her
    simp only at her
    subst her
    rw [M.bind_err] at he
    exact hall e (by rw [hR]; exact he)
  intro e he
  unfold mainRun at he
  rw [show M.liftE (parse_args argv) = (Except.ok args, []) from by rw [hparse]; rfl] at he
  simp only [M.bind_ok, List.nil_append] at he
  have nt1 : TraceAll (fun x => isGitTagEv x = false ∧ isTagPushEv x = false)
      (git_get_repo env env.cwd) := traceAll_git_get_repo2 env _ (notags_getRepo _)
  have nt2 : TraceAll (fun x => isGitTagEv x = false ∧ isTagPushEv x = false)
      (git_get_repo env env.scriptDir) := traceAll_git_get_repo2 env _ (notags_getRepo _)
  rcases h1 : git_get_repo env env.cwd with ⟨r1, t1⟩
  rw [h1] at he nt1
  cases r1 with
  | error er =>
    rw [M.bind_err] at he
    exact nt1 _ he
  | ok pr =>
    simp only [M.bind_ok] at he
    rcases List.mem_append.1 he with he1 | he
    · exact nt1 _ he1
    rcases h2 : git_get_repo env env.scriptDir with ⟨r2, t2⟩
    rw [h2] at he nt2
    cases r2 with
    | error er =>
      rw [M.bind_err] at he
      exact nt2 _ he
    | ok dr =>
      simp only [M.bind_ok] at he
      rcases List.mem_append.1 he with he1 | he
      · exact nt2 _ he1
      · unfold make_temp_dir at he
        cases hdbg : args.debug with
        | true =>
          rw [hdbg] at he
          simp only [reduceIte, M.emit, M.bind_ok] at he
          rcases List.mem_append.1 he with he1 | he
          · rw [List.mem_singleton.1 he1]
            exact notags_makedirs _
          rcases List.mem_append.1 he with he1 | he
          · rw [List.mem_singleton.1 he1]
            exact notags_mkdtemp _
          · exact hbody pr dr _ e he
        | false =>
          rw [hdbg] at he
          simp only [Bool.false_eq_true, reduceIte, M.emit, M.bind_ok, M.fin] at he
          rcases List.mem_append.1 he with he1 | he
          · rw [List.mem_singleton.1 he1]
            exact notags_mkdtemp _
          rcases List.mem_append.1 he with he1 | he
          · exact hbody pr dr _ e he1
          · rw [List.mem_singleton.1 he]
            exact notags_rmtree _

theorem git_tag_tr (env : Env) (r t x : String) : (git_tag env r t x).2 = [tagEv r t x] := by
  unfold git_tag git
  rw [bind_tr_nilf _ _ fun a => rfl, command_tr]
  simp [optFlag, tagEv]

theorem mem_fin_left {α : Type} {x : M α} {ev e : Ev} (h : e ∈ x.2) : e ∈ (M.fin x ev).2 :=
  List.mem_append_left _ h

/-- The temporary directory `main` works in, as a function of the debug
flag. -/
def tempDirOf (env : Env) (args : Args) : String :=
  if args.debug then "tmp/" ++ env.freshName else env.sysTempDir

/-- When the release checkout and the release `mvn package` succeed, the
`git tag` command is issued. -/
theorem releasePhase_tag_emitted (env : Env) (args : Args) (pr td rel : String)
    (hrel : args.release = some rel) (o2 o3 : List String)
    (hco : env.result ["git", "--git-dir=" ++ pr,
      "--work-tree=" ++ pathJoin td "release_checkout", "checkout", "HEAD", "."] Option.none
      = CmdOutcome.exits 0 o2)
    (hpk : env.result ["mvn", "package"] (some (pathJoin td "release_checkout"))
      = CmdOutcome.exits 0 o3) :
    tagEv pr rel "HEAD" ∈ (releasePhase env args pr td).2 := by
  unfold releasePhase
  rw [hrel]
  simp only [M.emit, M.bind_ok]
  rw [git_checkout_okEq env pr (pathJoin td "release_checkout") "HEAD" o2 hco, M.bind_ok]
  rw [show maven env (pathJoin td "release_checkout") "package" []
    = M.bind (command env ["mvn", "package"] (some (pathJoin td "release_checkout")) false false)
      fun _ => M.pur () from rfl, command_okEq env _ _ _ o3 hpk, M.bind_ok]
  simp only [M.pur, M.bind_ok]
  refine List.mem_append_right _ (List.mem_append_right _ (List.mem_append_right _ ?_))
  refine M.mem_bind_left ?_
  rw [git_tag_tr]
  simp

/-- When the run reaches the release phase and its checkout and package
build succeed, the release tag is created. -/
theorem mainRun_release_tag_created (env : Env) (argv : List String) (args : Args)
    (rel l1 l2 : String) (o2 o3 : List String)
    (hparse : parse_args argv = Except.ok args) (hrel : args.release = some rel)
    (h1 : env.result ["git", "rev-parse", "--git-dir"] (some env.cwd)
      = CmdOutcome.exits 0 [l1])
    (h2 : env.result ["git", "rev-parse", "--git-dir"] (some env.scriptDir)
      = CmdOutcome.exits 0 [l2])
    (hco : env.result ["git", "--git-dir=" ++ pathJoin env.cwd l1,
      "--work-tree=" ++ pathJoin (tempDirOf env args) "release_checkout", "checkout", "HEAD",
      "."] Option.none = CmdOutcome.exits 0 o2)
    (hpk : env.result ["mvn", "package"]
      (some (pathJoin (tempDirOf env args) "release_checkout")) = CmdOutcome.exits 0 o3) :
    tagEv (pathJoin env.cwd l1) rel "HEAD" ∈ (mainRun env argv).2 := by
  unfold mainRun
  refine M.mem_bind_right (a := args) (by simp [M.liftE, hparse]) ?_
  refine M.mem_bind_right (a := pathJoin env.cwd l1)
    (by rw [git_get_repo_okEq env env.cwd l1 h1]) ?_
  refine M.mem_bind_right (a := pathJoin env.scriptDir l2)
    (by rw [git_get_repo_okEq env env.scriptDir l2 h2]) ?_
  unfold make_temp_dir
  cases hdbg : args.debug with
  | true =>
    have htd : tempDirOf env args = "tmp/" ++ env.freshName := by
      unfold tempDirOf
      rw [hdbg]
      simp
    rw [htd] at hco hpk
    simp only [reduceIte]
    refine M.mem_bind_right (a := ()) rfl ?_
    refine M.mem_bind_right (a := ()) rfl ?_
    unfold mainBody
    exact M.mem_bind_left (releasePhase_tag_emitted env args _ _ rel hrel o2 o3 hco hpk)
  | false =>
    have htd : tempDirOf env args = env.sysTempDir := by
      unfold tempDirOf
      rw [hdbg]
      simp
    rw [htd] at hco hpk
    simp only [Bool.false_eq_true, reduceIte]
    refine M.mem_bind_right (a := ()) rfl ?_
    refine mem_fin_left ?_
    unfold mainBody
    exact M.mem_bind_left (releasePhase_tag_emitted env args _ _ rel hrel o2 o3 hco hpk)

/-- C2.  When a release label is supplied, the release tag is created if and
only if the package (validate) build of the HEAD checkout succeeded:
(i) a `git tag` event in a run's trace implies a successful `mvn package`
recorded in the same trace; (ii) if the package build fails, the run aborts
with no tag created and no tag refspec pushed; (iii) if the run reaches the
release phase and checkout and package succeed, the tag command is issued. -/
theorem c2_release_tag_iff_validate (env : Env) (argv : List String) (args : Args) (rel : String)
    (hparse : parse_args argv = Except.ok args) (hrel : args.release = some rel) :
    (∀ e ∈ (runScript env argv).2.2, isGitTagEv e = true →
      ∃ d out, Ev.cmd ["mvn", "package"] (some d) false ∈ (runScript env argv).2.2 ∧
        env.result ["mvn", "package"] (some d) = CmdOutcome.exits 0 out) ∧
    ((∀ d c out, env.result ["mvn", "package"] (some d) = CmdOutcome.exits c out → c ≠ 0) →
      ∀ e ∈ (runScript env argv).2.2, isGitTagEv e = false ∧ isTagPushEv e = false) ∧
    (∀ l1 l2 o2 o3,
      env.result ["git", "rev-parse", "--git-dir"] (some env.cwd) = CmdOutcome.exits 0 [l1] →
      env.result ["git", "rev-parse", "--git-dir"] (some env.scriptDir)
        = CmdOutcome.exits 0 [l2] →
      env.result ["git", "--git-dir=" ++ pathJoin env.cwd l1,
        "--work-tree=" ++ pathJoin (tempDirOf env args) "release_checkout", "checkout", "HEAD",
        "."] Option.none = CmdOutcome.exits 0 o2 →
      env.result ["mvn", "package"] (some (pathJoin (tempDirOf env args) "release_checkout"))
        = CmdOutcome.exits 0 o3 →
      tagEv (pathJoin env.cwd l1) rel "HEAD" ∈ (runScript env argv).2.2) := by
  refine ⟨?_, ?_, ?_⟩
  · intro e he htag
    rw [runScript_tr] at he ⊢
    exact mainRun_tag_needs_package env argv e he htag
  · intro hf e he
    rw [runScript_tr] at he
    exact mainRun_pkgfail_no_tag env argv args rel hparse hrel hf e he
  · intro l1 l2 o2 o3 h1 h2 hco hpk
    rw [runScript_tr]
    exact mainRun_release_tag_created env argv args rel l1 l2 o2 o3 hparse hrel h1 h2 hco hpk

theorem c2_witness :
    tagEv (pathJoin "/w" "x") "1.0" "HEAD" ∈ (runScript envAllOk ["--release", "1.0"]).2.2 ∧
    (∃ d out, Ev.cmd ["mvn", "package"] (some d) false
        ∈ (runScript envAllOk ["--release", "1.0"]).2.2 ∧
      envAllOk.result ["mvn", "package"] (some d) = CmdOutcome.exits 0 out) := by
  have h := c2_release_tag_iff_validate envAllOk ["--release", "1.0"]
    { revisions := ["HEAD"], release := some "1.0", branch := "gh-pages", debug := false }
    "1.0" rfl rfl
  have htag := h.2.2 "x" "x" ["x"] ["x"] rfl rfl rfl rfl
  exact ⟨htag, h.1 _ htag (by decide)⟩

/-! ## Computing `nameRevTargets` -/

theorem nrProj_nameRev (r x : String) : nrProj (nameRevEv r x) = some x := by
  simp [nrProj, nameRevEv]

theorem nrProj_getRepo (d : String) : nrProj (getRepoEv d) = Option.none := by
  simp [nrProj, getRepoEv]

theorem nrProj_refEx (r f : String) : nrProj (refExEv r f) = Option.none := by
  simp [nrProj, refExEv]

theorem nrProj_clone (s d : String) : nrProj (cloneEv s d) = Option.none := by
  simp [nrProj, cloneEv]

theorem nrProj_init (r : String) : nrProj (initEv r) = Option.none := by
  simp [nrProj, initEv]

theorem nrProj_reset (r x : String) : nrProj (resetEv r x) = Option.none := by
  simp [nrProj, resetEv]

theorem nrProj_tag (r t x : String) : nrProj (tagEv r t x) = Option.none := by
  simp [nrProj, tagEv]

theorem nrProj_push (r d : String) (refs : List String) :
    nrProj (pushEv r d refs) = Option.none := by
  simp [nrProj, pushEv]

theorem nrProj_checkout (r w x : String) : nrProj (checkoutEv r w x) = Option.none := by
  simp [nrProj, checkoutEv, beq_append_lit w ws_namerev]

theorem nrProj_add (r w : String) : nrProj (addEv r w) = Option.none := by
  simp [nrProj, addEv, beq_append_lit w ws_namerev]

theorem nrProj_commit (r w m : String) : nrProj (commitEv r w m) = Option.none := by
  simp [nrProj, commitEv, beq_append_lit w ws_namerev]

theorem nrProj_mkdir (d : String) : nrProj (Ev.mkdir d) = Option.none := rfl

theorem nrProj_makedirs (d : String) : nrProj (Ev.makedirs d) = Option.none := rfl

theorem nrProj_mkdtemp (d : String) : nrProj (Ev.mkdtemp d) = Option.none := rfl

theorem nrProj_rmtree (d : String) : nrProj (Ev.rmtree d) = Option.none := rfl

theorem nameRevTargets_append (t1 t2 : List Ev) :
    nameRevTargets (t1 ++ t2) = nameRevTargets t1 ++ nameRevTargets t2 := by
  unfold nameRevTargets
  exact List.filterMap_append t1 t2 nrProj

theorem nameRevTargets_nil_of (t : List Ev) (h : ∀ e ∈ t, nrProj e = Option.none) :
    nameRevTargets t = [] := by
  induction t with
  | nil => rfl
  | cons e rest ih =>
    unfold nameRevTargets at ih ⊢
    rw [List.filterMap_cons, h e (List.mem_cons_self e rest)]
    exact ih fun x hx => h x (List.mem_cons_of_mem _ hx)

theorem nameRevTargets_of_traceAll {α : Type} (x : M α)
    (h : TraceAll (fun e => nrProj e = Option.none) x) : nameRevTargets x.2 = [] :=
  nameRevTargets_nil_of x.2 h

/-- Uniform success environment: every command exits 0 with one caret-free
output line. -/
def AllOk (env : Env) : Prop :=
  ∀ a c, ∃ l, env.result a c = CmdOutcome.exits 0 [l] ∧ '^' ∉ l.toList

theorem char_ne_beq {l : List Char} {c : Char} (h : c ∉ l) :
    ∀ a ∈ l, (a == c) = false := by
  intro a ha
  exact beq_eq_false_iff_ne.2 fun he => h (he ▸ ha)

/-- A caret-free single-line `name-rev` answer is returned verbatim. -/
theorem git_name_rev_okH (env : Env) (repo rev l : String)
    (hres : env.result
        ["git", "--git-dir=" ++ repo, "name-rev", "--no-undefined", "--name-only", "--tags", rev]
        Option.none = CmdOutcome.exits 0 [l])
    (hcar : '^' ∉ l.toList) :
    git_name_rev env repo rev = (Except.ok l, [nameRevEv repo rev]) := by
  rw [git_name_rev_eval env repo rev l hres, rsplit1_none '^' l.toList (char_ne_beq hcar)]

theorem git_ref_exists_okEq (env : Env) (r f : String) (c : Nat) (out : List String)
    (h : env.result ["git", "--git-dir=" ++ r, "rev-parse", f] Option.none
      = CmdOutcome.exits c out) :
    git_ref_exists env r f = (Except.ok (c == 0), [refExEv r f]) := by
  unfold git_ref_exists git command
  simp [optFlag, M.emit, M.bind, M.pur, h, refExEv]

theorem git_clone_okEq (env : Env) (s d : String) (out : List String)
    (h : env.result ["git", "clone", "--mirror", s, d] Option.none = CmdOutcome.exits 0 out) :
    git_clone env s d = (Except.ok (), [cloneEv s d]) := by
  unfold git_clone git
  rw [show ("git" :: (optFlag "git-dir" Option.none ++ optFlag "work-tree" Option.none
    ++ ["clone", "--mirror", s, d])) = ["git", "clone", "--mirror", s, d] from by simp [optFlag],
    command_okEq env _ _ _ out h, M.bind_ok]
  simp [M.pur, cloneEv]

theorem git_reset_okEq (env : Env) (r x : String) (out : List String)
    (h : env.result ["git", "--git-dir=" ++ r, "reset", "--soft", x] Option.none
      = CmdOutcome.exits 0 out) :
    git_reset env r x = (Except.ok (), [resetEv r x]) := by
  unfold git_reset git
  rw [show ("git" :: (optFlag "git-dir" (some r) ++ optFlag "work-tree" Option.none
    ++ ["reset", "--soft", x])) = ["git", "--git-dir=" ++ r, "reset", "--soft", x] from by
      simp [optFlag],
    command_okEq env _ _ _ out h, M.bind_ok]
  simp [M.pur, resetEv]

theorem git_commit_all_okEq (env : Env) (r w m : String) (out out2 : List String)
    (h1 : env.result ["git", "--git-dir=" ++ r, "--work-tree=" ++ w, "add", "--all", "."]
      Option.none = CmdOutcome.exits 0 out)
    (h2 : env.result ["git", "--git-dir=" ++ r, "--work-tree=" ++ w, "commit", "--message=" ++ m]
      Option.none = CmdOutcome.exits 0 out2) :
    git_commit_all env r w m = (Except.ok (), [addEv r w, commitEv r w m]) := by
  unfold git_commit_all git
  rw [show ("git" :: (optFlag "git-dir" (some r) ++ optFlag "work-tree" (some w)
      ++ ["add", "--all", "."]))
      = ["git", "--git-dir=" ++ r, "--work-tree=" ++ w, "add", "--all", "."] from by
      simp [optFlag],
    show ("git" :: (optFlag "git-dir" (some r) ++ optFlag "work-tree" (some w)
      ++ ["commit", "--message=" ++ m]))
      = ["git", "--git-dir=" ++ r, "--work-tree=" ++ w, "commit", "--message=" ++ m] from by
      simp [optFlag],
    command_okEq env _ _ _ out h1, M.bind_ok, command_okEq env _ _ _ out2 h2, M.bind_ok]
  simp [M.pur, addEv, commitEv]

theorem nrProj_mvn_pkg (dir : String) :
    nrProj (Ev.cmd ["mvn", "package"] (some dir) false) = Option.none := by
  simp [nrProj]

theorem nrProj_mvn_vs (dir v : String) :
    nrProj (Ev.cmd ["mvn", "-DnewVersion=" ++ v, "versions:set"] (some dir) false)
      = Option.none := by
  simp [nrProj]

theorem nrProj_mvn_deploy (dir p : String) :
    nrProj (Ev.cmd ["mvn", "-DaltDeploymentRepository=" ++ p, "-Dmaven.test.skip=" ++ "true",
      "deploy"] (some dir) false) = Option.none := by
  simp [nrProj]

theorem enumerate_map_snd (l : List String) :
    ∀ i, (enumerate i l).map (fun p => p.2) = l := by
  induction l with
  | nil => intro i; rfl
  | cons x xs ih =>
    intro i
    simp only [enumerate, List.map_cons, ih (i + 1)]

theorem nameRevTargets_nil : nameRevTargets [] = [] := rfl

theorem nameRevTargets_cons_none {e : Ev} (h : nrProj e = Option.none) (t : List Ev) :
    nameRevTargets (e :: t) = nameRevTargets t := by
  unfold nameRevTargets
  rw [List.filterMap_cons, h]

theorem nameRevTargets_cons_some {e : Ev} {x : String} (h : nrProj e = some x) (t : List Ev) :
    nameRevTargets (e :: t) = x :: nameRevTargets t := by
  unfold nameRevTargets
  rw [List.filterMap_cons, h]

theorem nrProj_mvn_vsg (dir v : String) :
    nrProj (Ev.cmd ("mvn" :: ([("newVersion", v)].map fun kv => "-D" ++ kv.1 ++ "=" ++ kv.2)
      ++ ["versions:set"]) (some dir) false) = Option.none := by
  simp [nrProj]

theorem nrProj_mvn_depg (dir p : String) :
    nrProj (Ev.cmd ("mvn" :: ([("altDeploymentRepository", p), ("maven.test.skip", "true")].map
      fun kv => "-D" ++ kv.1 ++ "=" ++ kv.2) ++ ["deploy"]) (some dir) false)
      = Option.none := by
  simp [nrProj]

/-- Under a uniformly succeeding environment, the release phase succeeds and
returns the revision list with `refs/tags/<label>` appended at the end. -/
theorem releasePhase_okH (env : Env) (H : AllOk env) (args : Args) (pr td rel : String)
    (hrel : args.release = some rel) :
    releasePhase env args pr td
      = (Except.ok (args.revisions ++ ["refs/tags/" ++ rel]),
          [Ev.mkdir (pathJoin td "release_checkout"),
           checkoutEv pr (pathJoin td "release_checkout") "HEAD",
           Ev.cmd ["mvn", "package"] (some (pathJoin td "release_checkout")) false,
           tagEv pr rel "HEAD",
           pushEv pr "origin" ([Ref.str ("refs/tags/" ++ rel)].map refs_fn)]) := by
  obtain ⟨l1, h1, -⟩ := H ["git", "--git-dir=" ++ pr,
    "--work-tree=" ++ pathJoin td "release_checkout", "checkout", "HEAD", "."] Option.none
  obtain ⟨l2, h2, -⟩ := H ["mvn", "package"] (some (pathJoin td "release_checkout"))
  obtain ⟨l3, h3, -⟩ := H ["git", "--git-dir=" ++ pr, "tag", rel, "HEAD"] Option.none
  obtain ⟨l4, h4, -⟩ := H ("git" :: ("--git-dir=" ++ pr) :: "push" :: "origin"
    :: ([Ref.str ("refs/tags/" ++ rel)].map refs_fn)) Option.none
  have hmvn : maven env (pathJoin td "release_checkout") "package" []
      = (Except.ok (),
          [Ev.cmd ["mvn", "package"] (some (pathJoin td "release_checkout")) false]) :=
    maven_okEq env (pathJoin td "release_checkout") "package" [] [l2] h2
  unfold releasePhase
  rw [hrel]
  simp only [M.emit, M.bind_ok,
    git_checkout_okEq env pr (pathJoin td "release_checkout") "HEAD" [l1] h1, hmvn,
    git_tag_okEq env pr rel "HEAD" [l3] h3,
    git_push_okEq env pr "origin" [Ref.str ("refs/tags/" ++ rel)] [l4] h4, M.pur]
  simp

/-- Under a uniformly succeeding environment the branch-existence check
succeeds, so the branch is cloned, checked out and soft-reset. -/
theorem prepare_branch_okH (env : Env) (H : AllOk env) (dr cl co br : String) :
    prepare_branch env dr cl co br
      = (Except.ok (), [refExEv dr br, cloneEv dr cl, checkoutEv cl co br, resetEv cl br]) := by
  obtain ⟨l1, h1, -⟩ := H ["git", "--git-dir=" ++ dr, "rev-parse", br] Option.none
  obtain ⟨l2, h2, -⟩ := H ["git", "clone", "--mirror", dr, cl] Option.none
  obtain ⟨l3, h3, -⟩ := H ["git", "--git-dir=" ++ cl, "--work-tree=" ++ co, "checkout", br, "."]
    Option.none
  obtain ⟨l4, h4, -⟩ := H ["git", "--git-dir=" ++ cl, "reset", "--soft", br] Option.none
  unfold prepare_branch
  rw [git_ref_exists_okEq env dr br 0 [l1] h1, M.bind_ok]
  simp only [beq_self_eq_true, reduceIte, M.bind_ok, git_clone_okEq env dr cl [l2] h2,
    git_checkout_okEq env cl co br [l3] h3, git_reset_okEq env cl br [l4] h4]
  simp

/-- Under a uniformly succeeding environment the build loop succeeds, and
the revisions resolved by its `git name-rev` calls are exactly the iterated
revision list, in order. -/
theorem build_loop_okH (env : Env) (H : AllOk env) (td prc drc : String) :
    ∀ pairs : List (Nat × String), ∃ vs : List String, ∃ t : List Ev,
      build_loop env td prc drc pairs = (Except.ok vs, t) ∧
      nameRevTargets t = pairs.map (fun p => p.2) := by
  intro pairs
  induction pairs with
  | nil => exact ⟨[], [], rfl, rfl⟩
  | cons p rest ih =>
    obtain ⟨vs, t, hbl, hnrt⟩ := ih
    obtain ⟨p1, p2⟩ := p
    obtain ⟨l0, h0, hc0⟩ := H ["git", "--git-dir=" ++ prc, "name-rev", "--no-undefined",
      "--name-only", "--tags", p2] Option.none
    obtain ⟨l1, h1, -⟩ := H ["git", "--git-dir=" ++ prc,
      "--work-tree=" ++ pathJoin td ("project_checkout_" ++ toString p1), "checkout", p2, "."]
      Option.none
    obtain ⟨l2, h2, -⟩ := H ("mvn" :: ([("newVersion", l0)].map
        fun kv => "-D" ++ kv.1 ++ "=" ++ kv.2) ++ ["versions:set"])
      (some (pathJoin td ("project_checkout_" ++ toString p1)))
    obtain ⟨l3, h3, -⟩ := H ("mvn" :: ([("altDeploymentRepository",
        "-::default::file://" ++ abspath env.cwd drc), ("maven.test.skip", "true")].map
        fun kv => "-D" ++ kv.1 ++ "=" ++ kv.2) ++ ["deploy"])
      (some (pathJoin td ("project_checkout_" ++ toString p1)))
    refine ⟨l0 :: vs,
      nameRevEv prc p2
        :: Ev.mkdir (pathJoin td ("project_checkout_" ++ toString p1))
        :: checkoutEv prc (pathJoin td ("project_checkout_" ++ toString p1)) p2
        :: Ev.cmd ("mvn" :: ([("newVersion", l0)].map fun kv => "-D" ++ kv.1 ++ "=" ++ kv.2)
            ++ ["versions:set"]) (some (pathJoin td ("project_checkout_" ++ toString p1))) false
        :: Ev.cmd ("mvn" :: ([("altDeploymentRepository",
              "-::default::file://" ++ abspath env.cwd drc), ("maven.test.skip", "true")].map
              fun kv => "-D" ++ kv.1 ++ "=" ++ kv.2) ++ ["deploy"])
            (some (pathJoin td ("project_checkout_" ++ toString p1))) false
        :: t, ?_, ?_⟩
    · simp only [build_loop, maven_versions_set, maven_deploy,
        git_name_rev_okH env prc p2 l0 h0 hc0, M.emit, M.bind_ok,
        git_checkout_okEq env prc (pathJoin td ("project_checkout_" ++ toString p1)) p2 [l1] h1,
        maven_okEq env (pathJoin td ("project_checkout_" ++ toString p1)) "versions:set"
          [("newVersion", l0)] [l2] h2,
        maven_okEq env (pathJoin td ("project_checkout_" ++ toString p1)) "deploy"
          [("altDeploymentRepository", "-::default::file://" ++ abspath env.cwd drc),
           ("maven.test.skip", "true")] [l3] h3,
        hbl, M.pur]
      simp
    · rw [nameRevTargets_cons_some (nrProj_nameRev prc p2),
        nameRevTargets_cons_none (nrProj_mkdir _),
        nameRevTargets_cons_none (nrProj_checkout _ _ _),
        nameRevTargets_cons_none (nrProj_mvn_vsg _ _),
        nameRevTargets_cons_none (nrProj_mvn_depg _ _),
        hnrt, List.map_cons]

/-- Under a uniformly succeeding environment, the body of the temporary-dir
block succeeds, and the revisions it resolves and deploys are exactly the
parsed revisions followed by the release revision, last. -/
theorem mainBody_okH (env : Env) (H : AllOk env) (args : Args) (rel pr dr td : String)
    (hrel : args.release = some rel) :
    (mainBody env args pr dr td).1 = Except.ok () ∧
    nameRevTargets (mainBody env args pr dr td).2
      = args.revisions ++ ["refs/tags/" ++ rel] := by
  have hRel := releasePhase_okH env H args pr td rel hrel
  have hPrep := prepare_branch_okH env H dr (pathJoin td "deploy_repo")
    (pathJoin td "deploy_checkout") args.branch
  obtain ⟨lc, hc, -⟩ := H ["git", "clone", "--mirror", pr, pathJoin td "project_repo"] Option.none
  have hClone := git_clone_okEq env pr (pathJoin td "project_repo") [lc] hc
  obtain ⟨vs, tL, hLoop, hLnrt⟩ := build_loop_okH env H td (pathJoin td "project_repo")
    (pathJoin td "deploy_checkout") (enumerate 0 (args.revisions ++ ["refs/tags/" ++ rel]))
  obtain ⟨la, ha, -⟩ := H ["git", "--git-dir=" ++ pathJoin td "deploy_repo",
    "--work-tree=" ++ pathJoin td "deploy_checkout", "add", "--all", "."] Option.none
  obtain ⟨lm, hm, -⟩ := H ["git", "--git-dir=" ++ pathJoin td "deploy_repo",
    "--work-tree=" ++ pathJoin td "deploy_checkout", "commit",
    "--message=" ++ commit_message vs] Option.none
  have hCommit := git_commit_all_okEq env (pathJoin td "deploy_repo")
    (pathJoin td "deploy_checkout") (commit_message vs) [la] [lm] ha hm
  obtain ⟨lp1, hp1, -⟩ := H ("git" :: ("--git-dir=" ++ pathJoin td "deploy_repo") :: "push"
    :: dr :: ([Ref.pair "HEAD" args.branch].map refs_fn)) Option.none
  have hPush1 := git_push_okEq env (pathJoin td "deploy_repo") dr [Ref.pair "HEAD" args.branch]
    [lp1] hp1
  obtain ⟨lp2, hp2, -⟩ := H ("git" :: ("--git-dir=" ++ dr) :: "push" :: "origin"
    :: ([Ref.str args.branch].map refs_fn)) Option.none
  have hPush2 := git_push_okEq env dr "origin" [Ref.str args.branch] [lp2] hp2
  constructor
  · simp only [mainBody, hRel, M.emit, M.bind_ok, hPrep, hClone, hLoop, hCommit, hPush1, hPush2]
  · simp only [mainBody, hRel, M.emit, M.bind_ok, hPrep, hClone, hLoop, hCommit, hPush1, hPush2]
    simp only [List.cons_append, List.nil_append, List.append_assoc, List.singleton_append]
    simp only [nameRevTargets_append, nameRevTargets_cons_none, nameRevTargets_cons_some,
      nameRevTargets_nil, nrProj_mkdir, nrProj_checkout, nrProj_mvn_pkg, nrProj_tag, nrProj_push,
      nrProj_refEx, nrProj_clone, nrProj_reset, nrProj_add, nrProj_commit, hLnrt,
      enumerate_map_snd, List.append_nil, List.nil_append]

/-- C10.  When a release label is supplied and the run's commands succeed,
the release revision `refs/tags/<label>` is deployed as the last element of
the batch: the local `revisions` list aliases `args.revisions`, so the
append in the release block extends the list the build loop iterates, and
the revisions the loop resolves via `git name-rev` (and then deploys) are
exactly the parsed revisions followed by the release revision, last. -/
theorem c10_release_revision_deployed_last (env : Env) (argv : List String) (args : Args)
    (rel : String) (hparse : parse_args argv = Except.ok args)
    (hrel : args.release = some rel) (H : AllOk env) :
    (runScript env argv).1 = 0 ∧
    nameRevTargets (runScript env argv).2.2 = args.revisions ++ ["refs/tags/" ++ rel] := by
  obtain ⟨l1, h1, -⟩ := H ["git", "rev-parse", "--git-dir"] (some env.cwd)
  obtain ⟨l2, h2, -⟩ := H ["git", "rev-parse", "--git-dir"] (some env.scriptDir)
  have hGR1 := git_get_repo_okEq env env.cwd l1 h1
  have hGR2 := git_get_repo_okEq env env.scriptDir l2 h2
  cases hdbg : args.debug with
  | true =>
    obtain ⟨hmb1, hmbn⟩ := mainBody_okH env H args rel (pathJoin env.cwd l1)
      (pathJoin env.scriptDir l2) ("tmp/" ++ env.freshName) hrel
    rcases hB : mainBody env args (pathJoin env.cwd l1) (pathJoin env.scriptDir l2)
      ("tmp/" ++ env.freshName) with ⟨br, bt⟩
    rw [hB] at hmb1 hmbn
    have hbr : br = Except.ok () := hmb1
    subst hbr
    have hmr : mainRun env argv = (Except.ok (),
        getRepoEv env.cwd :: getRepoEv env.scriptDir :: Ev.makedirs "tmp"
          :: Ev.mkdtemp ("tmp/" ++ env.freshName) :: bt) := by
      simp only [mainRun, make_temp_dir, hdbg, reduceIte,
        show (M.liftE (parse_args argv) : M Args) = (Except.ok args, []) from by
          rw [hparse]; rfl,
        hGR1, hGR2, M.emit, M.bind_ok, hB]
      simp
    constructor
    · simp [runScript, hmr]
    · simp only [runScript, hmr]
      simp only [nameRevTargets_cons_none, nrProj_getRepo, nrProj_makedirs, nrProj_mkdtemp]
      exact hmbn
  | false =>
    obtain ⟨hmb1, hmbn⟩ := mainBody_okH env H args rel (pathJoin env.cwd l1)
      (pathJoin env.scriptDir l2) env.sysTempDir hrel
    rcases hB : mainBody env args (pathJoin env.cwd l1) (pathJoin env.scriptDir l2)
      env.sysTempDir with ⟨br, bt⟩
    rw [hB] at hmb1 hmbn
    have hbr : br = Except.ok () := hmb1
    subst hbr
    have hmr : mainRun env argv = (Except.ok (),
        getRepoEv env.cwd :: getRepoEv env.scriptDir :: Ev.mkdtemp env.sysTempDir
          :: (bt ++ [Ev.rmtree env.sysTempDir])) := by
      simp only [mainRun, make_temp_dir, hdbg, Bool.false_eq_true, reduceIte,
        show (M.liftE (parse_args argv) : M Args) = (Except.ok args, []) from by
          rw [hparse]; rfl,
        hGR1, hGR2, M.emit, M.bind_ok, hB, M.fin]
      simp
    constructor
    · simp [runScript, hmr]
    · simp only [runScript, hmr]
      simp only [nameRevTargets_cons_none, nrProj_getRepo, nrProj_mkdtemp,
        nameRevTargets_append, hmbn]
      simp only [nameRevTargets_cons_none, nrProj_rmtree, nameRevTargets_nil, List.append_nil]

theorem c10_witness :
    parse_args ["--release", "2.0"] = Except.ok
      { revisions := ["HEAD"], release := some "2.0", branch := "gh-pages", debug := false } ∧
    (runScript envAllOk ["--release", "2.0"]).1 = 0 ∧
    nameRevTargets (runScript envAllOk ["--release", "2.0"]).2.2
      = ["HEAD", "refs/tags/2.0"] := by
  have h := c10_release_revision_deployed_last envAllOk ["--release", "2.0"]
    { revisions := ["HEAD"], release := some "2.0", branch := "gh-pages", debug := false }
    "2.0" rfl rfl (fun a c => ⟨"x", rfl, by decide⟩)
  exact ⟨rfl, h.1, by rw [h.2]; decide⟩
